import Mathlib

/-!
Verification of the libcamera IPA control loop (3A algorithms, delayed
sensor controls, statistics grid resolution) against its design
specification.

Each C++ source function is shallowly embedded as a Lean definition:
`double` arithmetic is idealised as exact rational arithmetic (`ℚ`),
machine integers are modelled as `ℕ`/`ℤ` with explicit truncation
(`Int.floor`, `%`) where the C++ code converts or wraps, and per-object
mutable state is threaded explicitly through state structures.
-/

set_option maxHeartbeats 1000000

namespace Ipu3Grid

/-!
### IPU3 BDS grid resolution (`IPAIPU3::calculateBdsGrid`)

The ImgU statistics grid is chosen by scanning `(widthShift, heightShift)`
over `[3,7]²`, computing for each pair the covered width/height
`min(kMax, size >> shift) << shift` and the L1 error against the BDS
output size, and keeping the pair each time the error is not larger than
the best error seen so far (`if (error > minError) continue;`).
-/

def kMaxCellWidthPerSet : ℕ := 160

def kMaxCellHeightPerSet : ℕ := 56

/-- The covered width for a candidate `widthShift`:
`min(kMaxCellWidthPerSet, W >> shift) << shift`. -/
def coveredWidth (W shift : ℕ) : ℕ :=
  (min kMaxCellWidthPerSet (W >>> shift)) <<< shift

/-- The covered height for a candidate `heightShift`:
`min(kMaxCellHeightPerSet, H >> shift) << shift`. -/
def coveredHeight (H shift : ℕ) : ℕ :=
  (min kMaxCellHeightPerSet (H >>> shift)) <<< shift

/-- The wrapping 32-bit subtraction `a - b` of the error computation:
both operands are converted to `uint32_t` (the `int32_t height` is
non-negative and below 2³¹, so its conversion is value-preserving) and
the difference wraps modulo 2³². -/
def u32sub (a b : ℕ) : ℕ := (((a : ℤ) - (b : ℤ)) % 4294967296).toNat

/-- `std::abs(static_cast<int>(w))` of a `uint32_t` value `w`: values
below 2³¹ are kept, larger ones are reinterpreted as negative
two's-complement and negated. (At `w = 2³¹` exactly, the C++ `abs` of
`INT_MIN` is undefined; the theorems below only apply where that cannot
happen.) -/
def intAbsOfU32 (w : ℕ) : ℕ := if w < 2147483648 then w else 4294967296 - w

/-- The `error` of the scan loop, exactly as the C++ computes it:
`std::abs(static_cast<int>(width - W)) +
std::abs(static_cast<int>(height - H))` with the subtractions performed
in wrapping 32-bit arithmetic. -/
def gridError (W H ws hs : ℕ) : ℕ :=
  intAbsOfU32 (u32sub (coveredWidth W ws) W) +
    intAbsOfU32 (u32sub (coveredHeight H hs) H)

/-- The error formula of the specification:
`|cell_w·2^bw − W| + |cell_h·2^bh − H|` as exact absolute differences.
Stated separately from `gridError` so that the program's wrapped error
can be compared against it. -/
def exactError (W H ws hs : ℕ) : ℕ :=
  ((coveredWidth W ws : ℤ) - W).natAbs + ((coveredHeight H hs : ℤ) - H).natAbs

/-- The shift values scanned, in loop order. -/
def shiftList : List ℕ := [3, 4, 5, 6, 7]

/-- All `(widthShift, heightShift)` pairs in the nested-loop visit order:
the outer loop is the width shift, the inner loop the height shift. -/
def shiftPairs : List (ℕ × ℕ) :=
  shiftList.flatMap fun ws => shiftList.map fun hs => (ws, hs)

/-- Running state of the scan: the best error so far and the covered
sizes and shifts that achieved it. -/
structure ScanState where
  minError : ℕ
  bestWidth : ℕ
  bestHeight : ℕ
  bestLog2W : ℕ
  bestLog2H : ℕ
  deriving DecidableEq, Repr

/-- One loop iteration: skip the candidate iff its error is strictly
larger than the current best (`if (error > minError) continue;`), so a
tie replaces the stored best. -/
def visit (W H : ℕ) (st : ScanState) (p : ℕ × ℕ) : ScanState :=
  let error := gridError W H p.1 p.2
  if st.minError < error then st
  else ⟨error, coveredWidth W p.1, coveredHeight H p.2, p.1, p.2⟩

/-- `minError` is initialised to `std::numeric_limits<uint32_t>::max()`. -/
def initScan : ScanState := ⟨4294967295, 0, 0, 0, 0⟩

def scan (W H : ℕ) : ScanState := shiftPairs.foldl (visit W H) initScan

/-- The resulting grid descriptor. -/
structure GridConfig where
  width : ℕ
  height : ℕ
  blockWidthLog2 : ℕ
  blockHeightLog2 : ℕ
  deriving DecidableEq, Repr

/-- `IPAIPU3::calculateBdsGrid`: scan all shift pairs, then divide the
best covered sizes back down by the winning shifts. -/
def calculateBdsGrid (W H : ℕ) : GridConfig :=
  let st := scan W H
  ⟨st.bestWidth >>> st.bestLog2W, st.bestHeight >>> st.bestLog2H,
   st.bestLog2W, st.bestLog2H⟩

/-- A scan state is proper when its stored error and covered sizes match
its stored shifts. Every state produced by an update iteration is proper. -/
def ScanState.proper (W H : ℕ) (st : ScanState) : Prop :=
  st.minError = gridError W H st.bestLog2W st.bestLog2H ∧
  st.bestWidth = coveredWidth W st.bestLog2W ∧
  st.bestHeight = coveredHeight H st.bestLog2H

theorem coveredWidth_le (W s : ℕ) : coveredWidth W s ≤ W := by
  calc coveredWidth W s ≤ (W >>> s) <<< s := by
        simp only [coveredWidth, Nat.shiftLeft_eq]
        exact Nat.mul_le_mul_right _ (min_le_right _ _)
    _ ≤ W := by
        simp only [Nat.shiftLeft_eq, Nat.shiftRight_eq_div_pow]
        exact Nat.div_mul_le_self _ _

theorem coveredHeight_le (H s : ℕ) : coveredHeight H s ≤ H := by
  calc coveredHeight H s ≤ (H >>> s) <<< s := by
        simp only [coveredHeight, Nat.shiftLeft_eq]
        exact Nat.mul_le_mul_right _ (min_le_right _ _)
    _ ≤ H := by
        simp only [Nat.shiftLeft_eq, Nat.shiftRight_eq_div_pow]
        exact Nat.div_mul_le_self _ _

theorem exactError_le (W H ws hs : ℕ) : exactError W H ws hs ≤ W + H := by
  have h1 := coveredWidth_le W ws
  have h2 := coveredHeight_le H hs
  simp only [exactError]
  omega

/-- The wrapped 32-bit absolute difference recovers the exact one as
long as the true difference stays below 2³¹. -/
theorem intAbsOfU32_u32sub (a b : ℕ) (hle : a ≤ b) (hlt : b - a < 2147483648) :
    intAbsOfU32 (u32sub a b) = b - a := by
  unfold u32sub intAbsOfU32
  split_ifs with h <;> omega

/-- On BDS sizes whose dimensions sum below 2³¹ — the domain on which
the C++ error computation is free of signed overflow — the program's
wrapped error coincides with the specification's exact error. -/
theorem gridError_eq_exactError (W H ws hs : ℕ)
    (hW : W < 2147483648) (hH : H < 2147483648) :
    gridError W H ws hs = exactError W H ws hs := by
  have h1 := coveredWidth_le W ws
  have h2 := coveredHeight_le H hs
  rw [gridError,
    intAbsOfU32_u32sub _ _ h1 (by omega),
    intAbsOfU32_u32sub _ _ h2 (by omega),
    exactError]
  omega

theorem shiftLeft_shiftRight_cancel (a s : ℕ) : (a <<< s) >>> s = a := by
  simp only [Nat.shiftLeft_eq, Nat.shiftRight_eq_div_pow]
  exact Nat.mul_div_cancel a (Nat.pos_pow_of_pos s (by norm_num))

/-- Master induction over the scan loop: starting from a proper state, the
fold yields a proper state whose error is the minimum of the start error
and all visited errors, and the stored shifts are either unchanged or the
LAST visited pair achieving the final minimum (every pair visited after it
has strictly larger error). -/
theorem scan_foldl_spec (W H : ℕ) (l : List (ℕ × ℕ)) (st : ScanState)
    (hst : st.proper W H) :
    (l.foldl (visit W H) st).proper W H ∧
    (l.foldl (visit W H) st).minError ≤ st.minError ∧
    (∀ p ∈ l, (l.foldl (visit W H) st).minError ≤ gridError W H p.1 p.2) ∧
    ((l.foldl (visit W H) st = st ∧
        ∀ p ∈ l, st.minError < gridError W H p.1 p.2) ∨
      ∃ l1 l2, l = l1 ++
          (((l.foldl (visit W H) st).bestLog2W,
            (l.foldl (visit W H) st).bestLog2H) :: l2) ∧
        ∀ p ∈ l2,
          (l.foldl (visit W H) st).minError < gridError W H p.1 p.2) := by
  induction l generalizing st with
  | nil =>
    refine ⟨hst, le_refl _, by simp, Or.inl ⟨rfl, by simp⟩⟩
  | cons q l ih =>
    by_cases hq : st.minError < gridError W H q.1 q.2
    · have hv : visit W H st q = st := by
        simp [visit, hq]
      obtain ⟨h1, h2, h3, h4⟩ := ih st hst
      rw [List.foldl_cons, hv]
      refine ⟨h1, h2, ?_, ?_⟩
      · intro p hp
        rcases List.mem_cons.mp hp with h | h
        · subst h; exact le_trans h2 (le_of_lt hq)
        · exact h3 p h
      · rcases h4 with ⟨heq, hall⟩ | ⟨l1, l2, hsplit, hall⟩
        · exact Or.inl ⟨heq, fun p hp => by
            rcases List.mem_cons.mp hp with h | h
            · subst h; exact hq
            · exact hall p h⟩
        · refine Or.inr ⟨q :: l1, l2, ?_, hall⟩
          rw [List.cons_append]
          exact congrArg (q :: ·) hsplit
    · set st1 : ScanState :=
        ⟨gridError W H q.1 q.2, coveredWidth W q.1, coveredHeight H q.2,
         q.1, q.2⟩ with hst1
      have hv : visit W H st q = st1 := by
        simp [visit, hq, hst1]
      have hproper1 : st1.proper W H := ⟨rfl, rfl, rfl⟩
      obtain ⟨h1, h2, h3, h4⟩ := ih st1 hproper1
      rw [List.foldl_cons, hv]
      have hq' : gridError W H q.1 q.2 ≤ st.minError := le_of_not_lt hq
      refine ⟨h1, le_trans h2 hq', ?_, ?_⟩
      · intro p hp
        rcases List.mem_cons.mp hp with h | h
        · subst h; exact h2
        · exact h3 p h
      · rcases h4 with ⟨heq, hall⟩ | ⟨l1, l2, hsplit, hall⟩
        · refine Or.inr ⟨[], l, ?_, ?_⟩
          · rw [heq]; rfl
          · intro p hp
            rw [heq]
            exact hall p hp
        · refine Or.inr ⟨q :: l1, l2, ?_, hall⟩
          rw [List.cons_append]
          exact congrArg (q :: ·) hsplit

/-- The tail of the scan order after the first pair `(3, 3)`. -/
def shiftPairsTail : List (ℕ × ℕ) := shiftPairs.tail

theorem shiftPairs_eq_cons : shiftPairs = (3, 3) :: shiftPairsTail := by decide

/-- C1 (amended). For any BDS output size with `W + H < 2³¹` — the
domain on which the C++ error computation (wrapping `uint32_t`
subtraction, `int` cast, `std::abs`, `int` sum) is free of signed
overflow and coincides with the exact error (proved as part of this
theorem) — the grid resolution scan picks a shift pair of `[3,7]²` that
minimises `|cell_w·2^bw − W| + |cell_h·2^bh − H|` in both the program's
wrapped form and the specification's exact form, and among the pairs of
minimal error it keeps the LAST one in visit order (every pair visited
after the chosen one has strictly larger error), because the loop skips
a candidate only when its error is strictly worse than the best so far.
The reported cell counts are `min(160, W >> bw)` and `min(56, H >> bh)`.
In particular for `bds_output_size = (1280, 720)` the chosen grid is
`width=10, height=45, block_width_log2=7, block_height_log2=4` — not
`width=80, block_width_log2=4` as the tie-break-first reading suggests. -/
theorem calculateBdsGrid_minimises (W H : ℕ) (hWH : W + H ≤ 2147483647) :
    (((calculateBdsGrid W H).blockWidthLog2,
        (calculateBdsGrid W H).blockHeightLog2) ∈ shiftPairs) ∧
    (∀ p ∈ shiftPairs,
      gridError W H (calculateBdsGrid W H).blockWidthLog2
          (calculateBdsGrid W H).blockHeightLog2 ≤ gridError W H p.1 p.2) ∧
    (∀ p ∈ shiftPairs,
      exactError W H (calculateBdsGrid W H).blockWidthLog2
          (calculateBdsGrid W H).blockHeightLog2 ≤ exactError W H p.1 p.2) ∧
    (∀ ws hs : ℕ, gridError W H ws hs = exactError W H ws hs) ∧
    (∃ l1 l2, shiftPairs = l1 ++
        (((calculateBdsGrid W H).blockWidthLog2,
          (calculateBdsGrid W H).blockHeightLog2) :: l2) ∧
      ∀ p ∈ l2,
        exactError W H (calculateBdsGrid W H).blockWidthLog2
            (calculateBdsGrid W H).blockHeightLog2 < exactError W H p.1 p.2) ∧
    (calculateBdsGrid W H).width =
      min kMaxCellWidthPerSet (W >>> (calculateBdsGrid W H).blockWidthLog2) ∧
    (calculateBdsGrid W H).height =
      min kMaxCellHeightPerSet (H >>> (calculateBdsGrid W H).blockHeightLog2) ∧
    calculateBdsGrid 1280 720 = ⟨10, 45, 7, 4⟩ := by
  have hW : W < 2147483648 := by omega
  have hH : H < 2147483648 := by omega
  have heq : ∀ ws hs : ℕ, gridError W H ws hs = exactError W H ws hs :=
    fun ws hs => gridError_eq_exactError W H ws hs hW hH
  have herr33 : gridError W H 3 3 ≤ 4294967295 := by
    rw [heq]
    exact le_trans (exactError_le W H 3 3) (by omega)
  have h0 : visit W H initScan (3, 3) =
      ⟨gridError W H 3 3, coveredWidth W 3, coveredHeight H 3, 3, 3⟩ := by
    simp only [visit, initScan]
    rw [if_neg (by omega)]
  have hscan : scan W H =
      shiftPairsTail.foldl (visit W H)
        ⟨gridError W H 3 3, coveredWidth W 3, coveredHeight H 3, 3, 3⟩ := by
    rw [scan, shiftPairs_eq_cons, List.foldl_cons, h0]
  obtain ⟨hproper, hle, hmin, hsplit⟩ :=
    scan_foldl_spec W H shiftPairsTail
      ⟨gridError W H 3 3, coveredWidth W 3, coveredHeight H 3, 3, 3⟩
      ⟨rfl, rfl, rfl⟩
  rw [← hscan] at hproper hle hmin hsplit
  obtain ⟨hpe, hpw, hph⟩ := hproper
  have hgw : (calculateBdsGrid W H).blockWidthLog2 = (scan W H).bestLog2W := rfl
  have hgh : (calculateBdsGrid W H).blockHeightLog2 = (scan W H).bestLog2H := rfl
  have hmin' : ∀ p ∈ shiftPairs,
      gridError W H (calculateBdsGrid W H).blockWidthLog2
          (calculateBdsGrid W H).blockHeightLog2 ≤ gridError W H p.1 p.2 := by
    intro p hp
    rw [hgw, hgh, ← hpe]
    rw [shiftPairs_eq_cons] at hp
    rcases List.mem_cons.mp hp with h | h
    · subst h; exact hle
    · exact hmin p h
  have hminE : ∀ p ∈ shiftPairs,
      exactError W H (calculateBdsGrid W H).blockWidthLog2
          (calculateBdsGrid W H).blockHeightLog2 ≤ exactError W H p.1 p.2 := by
    intro p hp
    rw [← heq, ← heq]
    exact hmin' p hp
  have hsplit' : ∃ l1 l2, shiftPairs = l1 ++
      (((calculateBdsGrid W H).blockWidthLog2,
        (calculateBdsGrid W H).blockHeightLog2) :: l2) ∧
      ∀ p ∈ l2,
        exactError W H (calculateBdsGrid W H).blockWidthLog2
            (calculateBdsGrid W H).blockHeightLog2 < exactError W H p.1 p.2 := by
    rw [hgw, hgh]
    rcases hsplit with ⟨heq0, hall⟩ | ⟨l1, l2, htail, hall⟩
    · refine ⟨[], shiftPairsTail, ?_, ?_⟩
      · rw [shiftPairs_eq_cons, heq0]; rfl
      · intro p hp
        rw [← heq, ← heq, ← hpe, heq0]
        exact hall p hp
    · refine ⟨(3, 3) :: l1, l2, ?_, ?_⟩
      · rw [shiftPairs_eq_cons, List.cons_append]
        exact congrArg ((3, 3) :: ·) htail
      · intro p hp
        rw [← heq, ← heq, ← hpe]
        exact hall p hp
  refine ⟨?_, hmin', hminE, heq, hsplit', ?_, ?_, by decide⟩
  · obtain ⟨l1, l2, heq1, -⟩ := hsplit'
    rw [heq1]
    exact List.mem_append_right l1 (List.mem_cons_self _ _)
  · show (scan W H).bestWidth >>> (scan W H).bestLog2W = _
    rw [hpw, hgw, coveredWidth, shiftLeft_shiftRight_cancel]
  · show (scan W H).bestHeight >>> (scan W H).bestLog2H = _
    rw [hph, hgh, coveredHeight, shiftLeft_shiftRight_cancel]

/-- C1 counterexample: for `bds_output_size = (1280, 720)` the code picks
`width=10, height=45, block_width_log2=7, block_height_log2=4`, not the
claimed `width=80, height=45, block_width_log2=4, block_height_log2=4`:
both `(4,4)` and `(7,4)` cover 1280×720 exactly (error 0), and the loop's
`error > minError` skip condition lets the later pair win the tie. -/
theorem calculateBdsGrid_1280x720 :
    calculateBdsGrid 1280 720 = ⟨10, 45, 7, 4⟩ ∧
    calculateBdsGrid 1280 720 ≠ ⟨80, 45, 4, 4⟩ ∧
    gridError 1280 720 4 4 = gridError 1280 720 7 4 ∧
    exactError 1280 720 4 4 = exactError 1280 720 7 4 := by decide

/-- Witness for `calculateBdsGrid_minimises` at the spec's concrete
size 1280×720. -/
theorem calculateBdsGrid_minimises_witness :
    1280 + 720 ≤ 2147483647 ∧
    ((calculateBdsGrid 1280 720).blockWidthLog2,
     (calculateBdsGrid 1280 720).blockHeightLog2) ∈ shiftPairs :=
  ⟨by norm_num, (calculateBdsGrid_minimises 1280 720 (by norm_num)).1⟩

end Ipu3Grid

namespace DelayedControls

/-!
### `DelayedControls` (src/libcamera/delayed_controls.cpp)

The state machine that compensates for per-control sensor latency.
Control ids are modelled as `ℕ` and control values as `ℤ`. The
per-control ring buffers (`ctrls_`) are modelled as one function from
control id and ring slot to entry; every access goes through `% 16`
exactly as `ControlRingBuffer::operator[]` wraps its index.

Modelled from the spec: the header `delayed_controls.h` is not part of
the sources, so the `ControlInfo` entry layout and the 16-entry
`ControlRingBuffer` follow §4.H of the specification ("a per-control
ring buffer of 16 `(value, updated)` entries", "index arithmetic wraps
modulo ring size"). Entries seeded by `reset()` from the device-reported
values carry `updated = true` (they are constructed from a value); all
other entries default to `(0, false)`.
-/

structure ControlInfo where
  value : ℤ
  updated : Bool
  deriving DecidableEq, Repr

/-- The fixed configuration of a `DelayedControls` instance: the delayed
control ids (the keys of `delays_`, in iteration order) and their delays
in frames. -/
structure Config where
  ids : List ℕ
  delays : ℕ → ℕ

/-- `maxDelay_`, accumulated in the constructor over all handled
controls. -/
def maxDelay (c : Config) : ℕ :=
  c.ids.foldl (fun m id => max m (c.delays id)) 0

/-- The mutable state of a `DelayedControls` object. `ring id slot`
holds `ctrls_[id][slot]` for `slot < 16`. -/
structure State where
  running : Bool
  firstSequence : ℕ
  queueCount : ℕ
  writeCount : ℕ
  ring : ℕ → ℕ → ControlInfo

/-- Write one ring entry; the slot index wraps modulo the 16-entry ring
size as in `ControlRingBuffer::operator[]`. -/
def writeRing (r : ℕ → ℕ → ControlInfo) (id slot : ℕ) (v : ControlInfo) :
    ℕ → ℕ → ControlInfo :=
  fun i s => if i = id ∧ s = slot % 16 then v else r i s

/-- Read one ring entry, wrapping the index modulo the ring size. -/
def readRing (r : ℕ → ℕ → ControlInfo) (id slot : ℕ) : ControlInfo :=
  r id (slot % 16)

/-- `DelayedControls::reset`: zero the counters, seed slot 0 of every
handled control with the value currently reported by the device, then
advance `queueCount_` to 1. -/
def reset (c : Config) (device : ℕ → ℤ) : State :=
  { running := false
    firstSequence := 0
    queueCount := 1
    writeCount := 0
    ring := c.ids.foldl (fun r id => writeRing r id 0 ⟨device id, true⟩)
      (fun _ _ => ⟨0, false⟩) }

/-- First half of `DelayedControls::queue`: copy every control's value
for the previous queue index forward to index `queueCount_` with the
`updated` flag cleared. The index `queueCount_ - 1` is computed in
unsigned arithmetic, so it is modelled as `qc + 15` which agrees with it
modulo the ring size for every `qc` (including the wrap at `qc = 0`).
The values are read from the ring as it was before the copy; this agrees
with the in-place C++ loop because slots `qc` and `qc - 1` never alias
modulo 16 and distinct controls use distinct buffers. -/
def copyForward (c : Config) (qc : ℕ) (r : ℕ → ℕ → ControlInfo) :
    ℕ → ℕ → ControlInfo :=
  c.ids.foldl
    (fun r' id => writeRing r' id qc ⟨(readRing r id (qc + 15)).value, false⟩) r

/-- Second half of `DelayedControls::queue`: overlay the pushed controls
at index `queueCount_`, marking them updated; an unknown control id makes
the call fail (return `false`) without advancing `queueCount_`. -/
def overlayControls (c : Config) (s : State) :
    List (ℕ × ℤ) → Bool × State
  | [] => (true, { s with queueCount := s.queueCount + 1 })
  | (id, v) :: rest =>
    if id ∈ c.ids then
      overlayControls c
        { s with ring := writeRing s.ring id s.queueCount ⟨v, true⟩ } rest
    else (false, s)

/-- `DelayedControls::queue` (and `push`, which only adds locking). -/
def queue (c : Config) (s : State) (controls : List (ℕ × ℤ)) :
    Bool × State :=
  overlayControls c { s with ring := copyForward c s.queueCount s.ring }
    controls

/-- The control list written to the sensor by
`DelayedControls::frameStart`: for each handled control, peek at ring
index `max(0, writeCount_ - (maxDelay_ - delay))` (computed in signed
arithmetic) and emit the value only if its `updated` flag is set. -/
def frameStartWrites (c : Config) (s : State) : ℕ → Option ℤ :=
  fun id =>
    if id ∈ c.ids then
      let delayDiff : ℕ := maxDelay c - c.delays id
      let index : ℕ := (max 0 ((s.writeCount : ℤ) - (delayDiff : ℤ))).toNat
      let info := readRing s.ring id index
      if info.updated then some info.value else none
    else none

/-- The auto-queue loop of `frameStart`: `while (writeCount_ >=
queueCount_) queue({});`. Each no-op queue advances `queueCount_` by
one, so the loop body runs exactly `writeCount_ + 1 - queueCount_`
times (in saturating `ℕ` subtraction). -/
def autoQueue (c : Config) : ℕ → State → State
  | 0, s => s
  | n + 1, s => autoQueue c n (queue c s []).2

/-- `DelayedControls::frameStart`: latch the first sequence number,
build the control list to write (returned alongside the new state),
advance `writeCount_` and top up the queue with no-op entries. -/
def frameStart (c : Config) (s : State) (sequence : ℕ) :
    State × (ℕ → Option ℤ) :=
  let s1 := if s.running then s
            else { s with firstSequence := sequence, running := true }
  let out := frameStartWrites c s1
  let s2 := { s1 with writeCount := s1.writeCount + 1 }
  (autoQueue c (s2.writeCount + 1 - s2.queueCount) s2, out)

/-- `DelayedControls::get`: read every handled control at ring index
`max(0, sequence - fistSequence_ + 1 - maxDelay_)` (signed arithmetic on
`adjustedSeq - maxDelay_`). -/
def get (c : Config) (s : State) (sequence : ℕ) : ℕ → Option ℤ :=
  fun id =>
    if id ∈ c.ids then
      let adjustedSeq : ℤ := (sequence : ℤ) - (s.firstSequence : ℤ) + 1
      let index : ℕ := (max 0 (adjustedSeq - (maxDelay c : ℤ))).toNat
      some (readRing s.ring id index).value
    else none

/-!
#### The spec's Scenario 4

Control 0 is `EXPOSURE` (delay 2), control 1 is `ANALOGUE_GAIN`
(delay 1), so `max_delay = 2`. The device reports seed values `d0` and
`d1` at reset, `{EXPOSURE: V}` is pushed at `queue_count = 1`, then
`frame_start(10)` and `frame_start(11)` run.
-/

def scenarioConfig : Config := ⟨[0, 1], fun id => if id = 0 then 2 else 1⟩

def scenarioReset (d0 d1 : ℤ) : State :=
  reset scenarioConfig (fun id => if id = 0 then d0 else d1)

def scenarioAfterPush (d0 d1 V : ℤ) : State :=
  (queue scenarioConfig (scenarioReset d0 d1) [(0, V)]).2

def scenarioFs10 (d0 d1 V : ℤ) : State × (ℕ → Option ℤ) :=
  frameStart scenarioConfig (scenarioAfterPush d0 d1 V) 10

def scenarioFs11 (d0 d1 V : ℤ) : State × (ℕ → Option ℤ) :=
  frameStart scenarioConfig (scenarioFs10 d0 d1 V).1 11

/-- C2 counterexample: in Scenario 4 with seed `EXPOSURE = 100` and push
`{EXPOSURE: 500}` at queue index 1, `get(11)` does NOT return 500 — it
returns the reset seed 100, although `11 ≥ q + max_delay − 1 = 2`.
`get` subtracts `fistSequence_ = 10`, so its ring index for sequence 11
is `max(0, 11 − 10 + 1 − 2) = 0`, the seeded slot. -/
theorem scenario_get11_counterexample :
    maxDelay scenarioConfig = 2 ∧
    get scenarioConfig (scenarioFs11 100 5 500).1 11 0 = some 100 ∧
    get scenarioConfig (scenarioFs11 100 5 500).1 11 0 ≠ some 500 ∧
    1 + maxDelay scenarioConfig - 1 ≤ 11 := by decide

/-- C2 (amended). In Scenario 4 the `frame_start` half of the claim
holds: `frame_start(10)` writes only the reset seed for `EXPOSURE`
(no new value), and `frame_start(11)` writes the pushed `EXPOSURE = V`.
But the value pushed at queue index `q` is returned by `get(s)` once
`s ≥ first_sequence + q + max_delay − 1`: with `first_sequence = 10`
that is `s ≥ 12`, so `get(12)` (and `get(13)`, via the auto-queued
copy) returns `V`, while `get(11)` still returns the reset seed. -/
theorem scenario_amended (d0 d1 V : ℤ) :
    (scenarioFs10 d0 d1 V).2 0 = some d0 ∧
    (scenarioFs11 d0 d1 V).2 0 = some V ∧
    get scenarioConfig (scenarioFs11 d0 d1 V).1 11 0 = some d0 ∧
    get scenarioConfig (scenarioFs11 d0 d1 V).1 12 0 = some V ∧
    get scenarioConfig (scenarioFs11 d0 d1 V).1 13 0 = some V ∧
    (scenarioFs11 d0 d1 V).1.firstSequence = 10 := by
  refine ⟨rfl, rfl, rfl, rfl, ?_, rfl⟩
  simp [get, scenarioFs11, scenarioFs10, scenarioAfterPush, scenarioReset,
    scenarioConfig, frameStart, frameStartWrites, queue, overlayControls,
    copyForward, autoQueue, reset, readRing, writeRing, maxDelay]

/-!
#### The queue-ahead invariant (C9)

`queue_count > write_count` holds after `reset` and is preserved by
every `push` and `frame_start`.
-/

/-- One externally triggered operation on a `DelayedControls` object
(`get` does not modify the state). -/
inductive Op where
  | pushCtrls : List (ℕ × ℤ) → Op
  | startFrame : ℕ → Op

def applyOp (c : Config) (s : State) : Op → State
  | .pushCtrls controls => (queue c s controls).2
  | .startFrame sequence => (frameStart c s sequence).1

def runOps (c : Config) (s : State) (ops : List Op) : State :=
  ops.foldl (applyOp c) s

theorem overlayControls_writeCount (c : Config) :
    ∀ (l : List (ℕ × ℤ)) (s : State),
      (overlayControls c s l).2.writeCount = s.writeCount ∧
      s.queueCount ≤ (overlayControls c s l).2.queueCount := by
  intro l
  induction l with
  | nil => intro s; exact ⟨rfl, Nat.le_succ _⟩
  | cons p rest ih =>
    intro s
    simp only [overlayControls]
    by_cases hp : p.1 ∈ c.ids
    · rcases p with ⟨id, v⟩
      rw [if_pos hp]
      exact ih _
    · rcases p with ⟨id, v⟩
      rw [if_neg hp]
      exact ⟨rfl, le_refl _⟩

theorem queue_counts (c : Config) (s : State) (l : List (ℕ × ℤ)) :
    (queue c s l).2.writeCount = s.writeCount ∧
    s.queueCount ≤ (queue c s l).2.queueCount :=
  overlayControls_writeCount c l _

theorem queue_noop_counts (c : Config) (s : State) :
    (queue c s []).2.queueCount = s.queueCount + 1 ∧
    (queue c s []).2.writeCount = s.writeCount :=
  ⟨rfl, rfl⟩

theorem autoQueue_counts (c : Config) :
    ∀ (n : ℕ) (s : State),
      (autoQueue c n s).queueCount = s.queueCount + n ∧
      (autoQueue c n s).writeCount = s.writeCount := by
  intro n
  induction n with
  | zero => intro s; exact ⟨rfl, rfl⟩
  | succ m ih =>
    intro s
    obtain ⟨h1, h2⟩ := ih (queue c s []).2
    refine ⟨?_, h2⟩
    rw [autoQueue, h1, (queue_noop_counts c s).1]
    omega

theorem frameStart_counts (c : Config) (s : State) (sequence : ℕ) :
    (frameStart c s sequence).1.queueCount =
      s.queueCount + (s.writeCount + 1 + 1 - s.queueCount) ∧
    (frameStart c s sequence).1.writeCount = s.writeCount + 1 := by
  simp only [frameStart]
  by_cases hr : s.running
  · rw [if_pos hr]
    exact autoQueue_counts c _ _
  · rw [if_neg hr]
    exact autoQueue_counts c _ _

theorem applyOp_preserves (c : Config) (s : State) (op : Op)
    (h : s.writeCount < s.queueCount) :
    (applyOp c s op).writeCount < (applyOp c s op).queueCount := by
  cases op with
  | pushCtrls controls =>
    obtain ⟨h1, h2⟩ := queue_counts c s controls
    simp only [applyOp]
    omega
  | startFrame sequence =>
    obtain ⟨h1, h2⟩ := frameStart_counts c s sequence
    simp only [applyOp]
    omega

theorem readRing_writeRing_same (r : ℕ → ℕ → ControlInfo) (id slot : ℕ)
    (v : ControlInfo) : readRing (writeRing r id slot v) id slot = v := by
  simp [readRing, writeRing]

theorem readRing_writeRing_other (r : ℕ → ℕ → ControlInfo)
    (id id' slot slot' : ℕ) (v : ControlInfo) (h : id' ≠ id) :
    readRing (writeRing r id' slot' v) id slot = readRing r id slot := by
  simp only [readRing, writeRing]
  rw [if_neg]
  intro hc
  exact h hc.1.symm

theorem foldl_writeRing_not_mem (qc : ℕ) (f : ℕ → ControlInfo) (id : ℕ) :
    ∀ (l : List ℕ) (r₀ : ℕ → ℕ → ControlInfo), id ∉ l →
      readRing (l.foldl (fun r' i => writeRing r' i qc (f i)) r₀) id qc =
        readRing r₀ id qc := by
  intro l
  induction l with
  | nil => intro r₀ _; rfl
  | cons j rest ih =>
    intro r₀ hnot
    rw [List.foldl_cons,
      ih _ (fun hm => hnot (List.mem_cons_of_mem _ hm)),
      readRing_writeRing_other]
    intro hj
    exact hnot (hj ▸ List.mem_cons_self _ _)

theorem foldl_writeRing_mem (qc : ℕ) (f : ℕ → ControlInfo) (id : ℕ) :
    ∀ (l : List ℕ) (r₀ : ℕ → ℕ → ControlInfo), id ∈ l →
      readRing (l.foldl (fun r' i => writeRing r' i qc (f i)) r₀) id qc =
        f id := by
  intro l
  induction l with
  | nil => intro r₀ h; cases h
  | cons j rest ih =>
    intro r₀ h
    by_cases hmem : id ∈ rest
    · exact ih _ hmem
    · have hj : id = j := by
        rcases List.mem_cons.mp h with h | h
        · exact h
        · exact absurd h hmem
      subst hj
      rw [List.foldl_cons, foldl_writeRing_not_mem qc f id rest _ hmem,
        readRing_writeRing_same]

/-- Reading the entry a no-op `queue({})` writes: the previous index's
value with the `updated` flag cleared. -/
theorem copyForward_read (c : Config) (qc : ℕ) (r : ℕ → ℕ → ControlInfo)
    (id : ℕ) (hid : id ∈ c.ids) :
    readRing (copyForward c qc r) id qc =
      ⟨(readRing r id (qc + 15)).value, false⟩ :=
  foldl_writeRing_mem qc _ id c.ids r hid

/-- C9. `DelayedControls` keeps `queue_count > write_count` across every
operation: `reset` establishes `queue_count = 1 > 0 = write_count`, and
after any sequence of `push` and `frame_start` calls the invariant still
holds, because `frame_start` auto-queues no-op entries (the previous
index's value copied forward with the `updated` flag cleared) until the
queue index is strictly ahead of the write counter. -/
theorem queueCount_gt_writeCount (c : Config) (device : ℕ → ℤ)
    (ops : List Op) (s : State) (id : ℕ) (hid : id ∈ c.ids) :
    (reset c device).queueCount = 1 ∧
    (reset c device).writeCount = 0 ∧
    (runOps c (reset c device) ops).writeCount <
      (runOps c (reset c device) ops).queueCount ∧
    (readRing (queue c s []).2.ring id s.queueCount =
        ⟨(readRing s.ring id (s.queueCount + 15)).value, false⟩ ∧
      (queue c s []).2.queueCount = s.queueCount + 1) := by
  refine ⟨rfl, rfl, ?_, ?_, rfl⟩
  · have main : ∀ (l : List Op) (s₀ : State),
        s₀.writeCount < s₀.queueCount →
        (runOps c s₀ l).writeCount < (runOps c s₀ l).queueCount := by
      intro l
      induction l with
      | nil => intro s₀ h; exact h
      | cons op rest ih =>
        intro s₀ h
        exact ih _ (applyOp_preserves c s₀ op h)
    exact main ops (reset c device) Nat.zero_lt_one
  · exact copyForward_read c s.queueCount s.ring id hid

/-- Witness for `queueCount_gt_writeCount`: one control with delay 2,
one `frame_start`, checked on the seeded state. -/
theorem queueCount_gt_writeCount_witness :
    (reset ⟨[0], fun _ => 2⟩ (fun _ => 7)).queueCount = 1 ∧
    (reset ⟨[0], fun _ => 2⟩ (fun _ => 7)).writeCount = 0 ∧
    (runOps ⟨[0], fun _ => 2⟩ (reset ⟨[0], fun _ => 2⟩ (fun _ => 7))
        [Op.startFrame 4]).writeCount <
      (runOps ⟨[0], fun _ => 2⟩ (reset ⟨[0], fun _ => 2⟩ (fun _ => 7))
        [Op.startFrame 4]).queueCount ∧
    (readRing
        (queue ⟨[0], fun _ => 2⟩ (reset ⟨[0], fun _ => 2⟩ (fun _ => 7))
          []).2.ring 0
        (reset ⟨[0], fun _ => 2⟩ (fun _ => 7)).queueCount =
      ⟨(readRing (reset ⟨[0], fun _ => 2⟩ (fun _ => 7)).ring 0
          ((reset ⟨[0], fun _ => 2⟩ (fun _ => 7)).queueCount + 15)).value,
        false⟩ ∧
      (queue ⟨[0], fun _ => 2⟩ (reset ⟨[0], fun _ => 2⟩ (fun _ => 7))
          []).2.queueCount =
        (reset ⟨[0], fun _ => 2⟩ (fun _ => 7)).queueCount + 1) :=
  queueCount_gt_writeCount ⟨[0], fun _ => 2⟩ (fun _ => 7) [Op.startFrame 4]
    (reset ⟨[0], fun _ => 2⟩ (fun _ => 7)) 0 (List.mem_singleton.mpr rfl)

end DelayedControls

namespace Ipu3Agc

/-!
### The IPU3 mean-based AGC (`ipa::ipu3::algorithms::Agc`)

Durations (`utils::Duration`, a `double` count of seconds) and gains are
modelled as `ℚ`; the sensor exposure in lines is a `uint32_t`, so the
`double → uint32_t` conversions truncate (`Int.floor` + `toNat`, the
values being non-negative). `sqrt(0.2)` — the only irrational constant,
used by the exposure filter when the filtered value is within ±20% of
the target — is threaded through as an explicit parameter `sqrtSpeed`;
every theorem below holds for all its values.
-/

/-- One `ipu3_uapi_awb_set_item` cell of the statistics buffer: 8-bit
channel averages and the saturation ratio. -/
structure Cell where
  grAvg : ℕ
  gbAvg : ℕ
  rAvg : ℕ
  bAvg : ℕ
  satRatio : ℕ
  deriving DecidableEq, Repr

/-- The AWB gains of the shared frame context, read by
`computeInitialY`. -/
structure AwbGains where
  red : ℚ
  green : ℚ
  blue : ℚ
  deriving DecidableEq, Repr

/-- The width/height of the `ipu3_uapi_grid_config` used to traverse the
statistics (the other descriptor fields are not read by the AGC). -/
structure BdsGrid where
  width : ℕ
  height : ℕ
  deriving DecidableEq, Repr

def kMinAnalogueGain : ℚ := 1

def kMaxAnalogueGain : ℚ := 8

/-- `kMaxShutterSpeed = 60ms`, in seconds. -/
def kMaxShutterSpeed : ℚ := 60 / 1000

def knumHistogramBins : ℕ := 256

def kEvGainTarget : ℚ := 1 / 2

def kMinCellsPerZoneRatio : ℕ := 255 * 20 / 100

def kNumStartupFrames : ℕ := 10

/-- The member state of the `Agc` object, plus the configured grid
geometry it traverses. -/
structure AgcState where
  frameCount : ℕ
  iqMean : ℚ
  lineDuration : ℚ
  minShutterSpeed : ℚ
  maxShutterSpeed : ℚ
  minAnalogueGain : ℚ
  maxAnalogueGain : ℚ
  filteredExposure : ℚ
  currentExposure : ℚ
  prevExposureValue : ℚ
  stride : ℕ
  grid : BdsGrid

/-- `context.frameContext.agc`: the exposure (in sensor lines, a
`uint32_t`) and analogue gain the AGC outputs. -/
structure AgcFrameContext where
  exposure : ℕ
  gain : ℚ
  deriving DecidableEq, Repr

/-- The configuration data consumed by `Agc::configure`. -/
structure AgcConfigInfo where
  lineLength : ℕ
  pixelRate : ℕ
  stride : ℕ
  grid : BdsGrid
  minShutterSpeed : ℚ
  maxShutterSpeed : ℚ
  minAnalogueGain : ℚ
  maxAnalogueGain : ℚ

def lineDurationOf (cfg : AgcConfigInfo) : ℚ :=
  (cfg.lineLength : ℚ) / (cfg.pixelRate : ℚ)

def maxShutterOf (cfg : AgcConfigInfo) : ℚ :=
  min cfg.maxShutterSpeed kMaxShutterSpeed

def minGainOf (cfg : AgcConfigInfo) : ℚ :=
  max cfg.minAnalogueGain kMinAnalogueGain

def maxGainOf (cfg : AgcConfigInfo) : ℚ :=
  min cfg.maxAnalogueGain kMaxAnalogueGain

/-- The default exposure `minShutterSpeed_ / lineDuration_`, truncated by
the assignment to the `uint32_t` frame-context field. -/
def minExposureLines (cfg : AgcConfigInfo) : ℕ :=
  (⌊cfg.minShutterSpeed / lineDurationOf cfg⌋).toNat

/-- The largest exposure `computeExposure` can emit:
`maxShutterSpeed_ / lineDuration_`, truncated. -/
def maxExposureLines (cfg : AgcConfigInfo) : ℕ :=
  (⌊maxShutterOf cfg / lineDurationOf cfg⌋).toNat

/-- `Agc::configure`: derive the line duration, clamp the configured
shutter and gain limits against the hard-coded maxima, and seed the
frame context with the minimum exposure and gain. -/
def configure (cfg : AgcConfigInfo) : AgcState × AgcFrameContext :=
  let gain := minGainOf cfg
  let exposure := minExposureLines cfg
  ({ frameCount := 0
     iqMean := 0
     lineDuration := lineDurationOf cfg
     minShutterSpeed := cfg.minShutterSpeed
     maxShutterSpeed := maxShutterOf cfg
     minAnalogueGain := gain
     maxAnalogueGain := maxGainOf cfg
     filteredExposure := 0
     currentExposure := 0
     prevExposureValue := gain * (exposure : ℚ) * lineDurationOf cfg
     stride := cfg.stride
     grid := cfg.grid },
   { exposure := exposure, gain := gain })

/-- The cells visited by the grid traversal `for cellY < grid.height,
cellX < grid.width` at positions `cellY * stride_ + cellX`. -/
def cellsOf (stats : ℕ → Cell) (grid : BdsGrid) (stride : ℕ) : List Cell :=
  (List.range grid.height).flatMap fun y =>
    (List.range grid.width).map fun x => stats (y * stride + x)

/-- The histogram bin of a cell: `(Gr_avg + Gb_avg) / 2` in integer
arithmetic. -/
def greenBin (c : Cell) : ℕ := (c.grAvg + c.gbAvg) / 2

/-- The cells counted by `measureBrightness`:
`sat_ratio <= kMinCellsPerZoneRatio`. -/
def countedCells (cells : List Cell) : List Cell :=
  cells.filter fun c => decide (c.satRatio ≤ kMinCellsPerZoneRatio)

/-- The green histogram built by `measureBrightness`. -/
def hist (cells : List Cell) (b : ℕ) : ℕ :=
  ((countedCells cells).filter fun c => decide (greenBin c = b)).length

def histTotal (cells : List Cell) : ℕ := (countedCells cells).length

def cum (cells : List Cell) (b : ℕ) : ℕ :=
  ((List.range b).map (hist cells)).sum

/-- Modelled from the spec: `Histogram::quantile` (libipa `histogram.cpp`
is not part of the sources). §4.B: return the first bin index
`b ∈ [0,B]` with `cum[b]/cum[B] ≥ q`, tie-break by smallest `b`. -/
def quantile (cells : List Cell) (q : ℚ) : ℕ :=
  ((List.range (knumHistogramBins + 1)).find? fun b =>
    decide (q * (histTotal cells : ℚ) ≤ (cum cells b : ℚ))).getD
    knumHistogramBins

/-- Modelled from the spec: `Histogram::interQuantileMean` (libipa
`histogram.cpp` is not part of the sources). §4.B: the arithmetic mean
of bin values weighted by counts within the
`[quantile(q_lo), quantile(q_hi)]` range. -/
def interQuantileMean (cells : List Cell) (qlo qhi : ℚ) : ℚ :=
  let lo := quantile cells qlo
  let hi := quantile cells qhi
  let bins := (List.range (hi + 1)).drop lo
  ((bins.map fun (b : ℕ) => (b : ℚ) * (hist cells b : ℚ)).sum) /
    ((bins.map fun (b : ℕ) => (hist cells b : ℚ)).sum)

/-- `Agc::measureBrightness`: histogram the counted cells' green level
and store the quantile mean of the top 2%, or `bins − 0.5` when the
histogram is empty. -/
def measureBrightness (s : AgcState) (stats : ℕ → Cell) : AgcState :=
  let cells := cellsOf stats s.grid s.stride
  { s with iqMean :=
      if histTotal cells = 0 then (knumHistogramBins : ℚ) - 1 / 2
      else interQuantileMean cells (98 / 100) 1 }

/-- `Agc::computeInitialY`: the AWB-weighted average brightness of the
grid at gain `currentYGain`. The green average uses the integer division
`(Gr_avg + Gb_avg) / 2` of the C++ `uint8_t` arithmetic. -/
def computeInitialY (stride : ℕ) (grid : BdsGrid) (stats : ℕ → Cell)
    (awb : AwbGains) (currentYGain : ℚ) : ℚ :=
  let cells := cellsOf stats grid stride
  let redSum := (cells.map fun c => (c.rAvg : ℚ) * currentYGain).sum
  let greenSum := (cells.map fun c => (greenBin c : ℚ) * currentYGain).sum
  let blueSum := (cells.map fun c => (c.bAvg : ℚ) * currentYGain).sum
  let ySum := redSum * awb.red * (299 / 1000) +
    greenSum * awb.green * (587 / 1000) +
    blueSum * awb.blue * (114 / 1000)
  ySum / ((grid.height : ℚ) * (grid.width : ℚ))

/-- The brightness target of the iterative gain refinement in
`Agc::process` (`double targetY = 60;`), on the 8-bit scale of the cell
averages. -/
def targetY : ℚ := 60

/-- The iterative gain refinement of `Agc::process`: up to 8 iterations
of `extra_gain = min(10, targetY / (initialY + 0.001))`, stopping once
the extra gain falls below 1.01. -/
def gainLoop (stride : ℕ) (grid : BdsGrid) (stats : ℕ → Cell)
    (awb : AwbGains) : ℕ → ℚ → ℚ
  | 0, g => g
  | n + 1, g =>
    let initialY := computeInitialY stride grid stats awb g
    let extra := min 10 (targetY / (initialY + 1 / 1000))
    let g' := g * extra
    if extra < 101 / 100 then g' else gainLoop stride grid stats awb n g'

/-- The `currentYGain` handed to `computeExposure` by `Agc::process`. -/
def processYGain (stride : ℕ) (grid : BdsGrid) (stats : ℕ → Cell)
    (awb : AwbGains) : ℚ :=
  gainLoop stride grid stats awb 8 1

/-- `std::clamp`. -/
def stdClamp (v lo hi : ℚ) : ℚ := if v < lo then lo else if hi < v then hi else v

/-- `Agc::filterExposure`, returning the new `filteredExposure_`. The
speed is 1 during the first `kNumStartupFrames` frames and 0.2
afterwards; within ±20% of the target it becomes `sqrt(speed)`, i.e. 1
or the externally supplied `sqrtSpeed` standing for `sqrt(0.2)`. -/
def filterExposure (s : AgcState) (sqrtSpeed : ℚ) : ℚ :=
  let speed : ℚ := if s.frameCount < kNumStartupFrames then 1 else 1 / 5
  if s.filteredExposure = 0 then s.currentExposure
  else
    let speed' :=
      if s.filteredExposure < 12 / 10 * s.currentExposure ∧
          8 / 10 * s.currentExposure < s.filteredExposure then
        (if speed = 1 then 1 else sqrtSpeed)
      else speed
    speed' * s.currentExposure + s.filteredExposure * (1 - speed')

/-- The EV gain tested against 1% of unity: `kEvGainTarget *
knumHistogramBins / iqMean_`, raised to `currentYGain` when smaller. -/
def evGainValue (iqMean currentYGain : ℚ) : ℚ :=
  let evGain := kEvGainTarget * (knumHistogramBins : ℚ) / iqMean
  if evGain < currentYGain then currentYGain else evGain

/-- `Agc::computeExposure`: store the new previous exposure value, return
early when the EV gain is within 1% of unity, otherwise clamp the total
exposure, filter it, and split it into shutter time (pushed to its
maximum first) and analogue gain; the new exposure in lines is the
truncated `shutterTime / lineDuration_`. -/
def computeExposure (s : AgcState) (exposure : ℕ) (analogueGain : ℚ)
    (currentYGain sqrtSpeed : ℚ) : AgcState × ℕ × ℚ :=
  let currentShutter := (exposure : ℚ) * s.lineDuration
  let s1 := { s with prevExposureValue := currentShutter * analogueGain }
  let evGain := evGainValue s.iqMean currentYGain
  if |evGain - 1| < 1 / 100 then (s1, exposure, analogueGain)
  else
    let maxTotalExposure := s1.maxShutterSpeed * s1.maxAnalogueGain
    let s2 :=
      { s1 with
        currentExposure := min (s1.prevExposureValue * evGain) maxTotalExposure }
    let s3 := { s2 with filteredExposure := filterExposure s2 sqrtSpeed }
    let exposureValue := s3.filteredExposure
    let shutterTime := stdClamp (exposureValue / s3.minAnalogueGain)
      s3.minShutterSpeed s3.maxShutterSpeed
    let stepGain := stdClamp (exposureValue / shutterTime)
      s3.minAnalogueGain s3.maxAnalogueGain
    (s3, (⌊shutterTime / s3.lineDuration⌋).toNat, stepGain)

/-- The per-frame inputs of `Agc::process`: the statistics buffer, the
AWB gains currently in the frame context, and the value of `sqrt(0.2)`. -/
structure FrameInput where
  stats : ℕ → Cell
  awb : AwbGains
  sqrtSpeed : ℚ

/-- `Agc::process`: measure the brightness, refine the gain towards
`targetY`, compute the new exposure split, count the frame. -/
def process (s : AgcState) (frame : AgcFrameContext) (inp : FrameInput) :
    AgcState × AgcFrameContext :=
  let s1 := measureBrightness s inp.stats
  let currentYGain := processYGain s.stride s.grid inp.stats inp.awb
  let r := computeExposure s1 frame.exposure frame.gain currentYGain inp.sqrtSpeed
  ({ r.1 with frameCount := r.1.frameCount + 1 },
   { exposure := r.2.1, gain := r.2.2 })

def processFrame (p : AgcState × AgcFrameContext) (inp : FrameInput) :
    AgcState × AgcFrameContext :=
  process p.1 p.2 inp

/-- Run the AGC over a sequence of frames from the configured state. -/
def runFrames (cfg : AgcConfigInfo) (inputs : List FrameInput) :
    AgcState × AgcFrameContext :=
  inputs.foldl processFrame (configure cfg)

theorem gainLoop_succ (stride : ℕ) (grid : BdsGrid) (stats : ℕ → Cell)
    (awb : AwbGains) (n : ℕ) (g : ℚ) :
    gainLoop stride grid stats awb (n + 1) g =
      if min 10 (targetY /
          (computeInitialY stride grid stats awb g + 1 / 1000)) < 101 / 100
      then g * min 10 (targetY /
          (computeInitialY stride grid stats awb g + 1 / 1000))
      else gainLoop stride grid stats awb n (g * min 10 (targetY /
          (computeInitialY stride grid stats awb g + 1 / 1000))) := rfl

/-- C3 counterexample. The brightness target of the iterative gain
refinement is `targetY = 60`, which is not 0.4 of the 8-bit full scale
(`0.4 · 255 = 102`): on a uniform scene of brightness exactly 102 the
loop does not hold the gain near 1 but scales the brightness down to 60
(the refined gain satisfies `g · (102 + 0.001) = 60 < 1 · 102`). -/
theorem targetY_counterexample :
    targetY = 60 ∧ targetY ≠ (4 / 10 : ℚ) * 255 ∧
    computeInitialY 1 ⟨1, 1⟩ (fun _ => ⟨102, 102, 102, 102, 0⟩) ⟨1, 1, 1⟩ 1
      = 102 ∧
    processYGain 1 ⟨1, 1⟩ (fun _ => ⟨102, 102, 102, 102, 0⟩) ⟨1, 1, 1⟩ *
      ((102 : ℚ) + 1 / 1000) = 60 ∧
    processYGain 1 ⟨1, 1⟩ (fun _ => ⟨102, 102, 102, 102, 0⟩) ⟨1, 1, 1⟩ < 1 := by
  have hY : computeInitialY 1 ⟨1, 1⟩ (fun _ => ⟨102, 102, 102, 102, 0⟩)
      ⟨1, 1, 1⟩ 1 = 102 := by
    simp [computeInitialY, cellsOf, greenBin, List.range_succ]
    norm_num
  have hloop : processYGain 1 ⟨1, 1⟩ (fun _ => ⟨102, 102, 102, 102, 0⟩)
      ⟨1, 1, 1⟩ = 60 / (102 + 1 / 1000) := by
    rw [processYGain, show (8 : ℕ) = 7 + 1 from rfl, gainLoop_succ, hY]
    simp only [targetY]
    rw [min_eq_right (by norm_num : (60 : ℚ) / (102 + 1 / 1000) ≤ 10),
      if_pos (by norm_num : (60 : ℚ) / (102 + 1 / 1000) < 101 / 100), one_mul]
  refine ⟨rfl, by norm_num [targetY], hY, ?_, ?_⟩
  · rw [hloop]
    norm_num
  · rw [hloop]
    norm_num

/-- C3 (amended). The mean-based AGC's iterative gain refinement (up to 8
iterations, extra gain `min(10, targetY/(initial_Y + 0.001))`, stopping
when the extra gain is below 1.01) drives the weighted average
brightness toward `targetY = 60` on the 8-bit scale (≈ 0.235 of full
scale, not 0.4): whenever the unit-gain brightness `Y₁` already reaches
the target, the loop stops after one iteration with a gain that lands
the brightness exactly on the target, `g · (Y₁ + 0.001) = 60`. -/
theorem gainLoop_targets_60 (stride : ℕ) (grid : BdsGrid)
    (stats : ℕ → Cell) (awb : AwbGains)
    (h : targetY ≤ computeInitialY stride grid stats awb 1) :
    processYGain stride grid stats awb *
      (computeInitialY stride grid stats awb 1 + 1 / 1000) = targetY ∧
    targetY = 60 := by
  have h60 : (60 : ℚ) ≤ computeInitialY stride grid stats awb 1 := h
  have hpos : (0 : ℚ) < computeInitialY stride grid stats awb 1 + 1 / 1000 := by
    linarith
  have hx : targetY / (computeInitialY stride grid stats awb 1 + 1 / 1000) <
      101 / 100 := by
    rw [div_lt_iff₀ hpos]
    show (60 : ℚ) < _
    linarith
  have hmin : min 10 (targetY /
      (computeInitialY stride grid stats awb 1 + 1 / 1000)) =
      targetY / (computeInitialY stride grid stats awb 1 + 1 / 1000) :=
    min_eq_right (le_of_lt (lt_of_lt_of_le hx (by norm_num)))
  refine ⟨?_, rfl⟩
  rw [processYGain, show (8 : ℕ) = 7 + 1 from rfl, gainLoop_succ, hmin,
    if_pos hx, one_mul, div_mul_cancel₀]
  exact ne_of_gt hpos

/-- Witness for `gainLoop_targets_60`: a uniform scene of brightness
200 ≥ 60. -/
theorem gainLoop_targets_60_witness :
    targetY ≤
      computeInitialY 1 ⟨1, 1⟩ (fun _ => ⟨200, 200, 200, 200, 0⟩) ⟨1, 1, 1⟩ 1 ∧
    processYGain 1 ⟨1, 1⟩ (fun _ => ⟨200, 200, 200, 200, 0⟩) ⟨1, 1, 1⟩ *
      (computeInitialY 1 ⟨1, 1⟩ (fun _ => ⟨200, 200, 200, 200, 0⟩) ⟨1, 1, 1⟩ 1 +
        1 / 1000) = targetY := by
  have h200 : computeInitialY 1 ⟨1, 1⟩ (fun _ => ⟨200, 200, 200, 200, 0⟩)
      ⟨1, 1, 1⟩ 1 = 200 := by
    simp [computeInitialY, cellsOf, greenBin, List.range_succ]
    norm_num
  have hh : targetY ≤
      computeInitialY 1 ⟨1, 1⟩ (fun _ => ⟨200, 200, 200, 200, 0⟩)
        ⟨1, 1, 1⟩ 1 := by
    rw [h200]
    norm_num [targetY]
  exact ⟨hh,
    (gainLoop_targets_60 1 ⟨1, 1⟩ (fun _ => ⟨200, 200, 200, 200, 0⟩)
      ⟨1, 1, 1⟩ hh).1⟩

/-- C10. Whenever the EV gain at the well-exposed check (the histogram
gain `kEvGainTarget·256/iqMean`, raised to `currentYGain` when that is
larger) is within 1% of unity, `computeExposure` returns early: the
frame's exposure and analogue gain are exactly unchanged, the exposure
filter state and the clamped total exposure are not updated, and only
the stored previous exposure value is refreshed to
`exposure · lineDuration · gain`. -/
theorem computeExposure_wellExposed (s : AgcState) (exposure : ℕ)
    (gain currentYGain sqrtSpeed : ℚ)
    (h : |evGainValue s.iqMean currentYGain - 1| < 1 / 100) :
    computeExposure s exposure gain currentYGain sqrtSpeed =
      ({ s with prevExposureValue := (exposure : ℚ) * s.lineDuration * gain },
        exposure, gain) ∧
    (computeExposure s exposure gain currentYGain sqrtSpeed).2.1 = exposure ∧
    (computeExposure s exposure gain currentYGain sqrtSpeed).2.2 = gain ∧
    (computeExposure s exposure gain currentYGain sqrtSpeed).1.filteredExposure
      = s.filteredExposure ∧
    (computeExposure s exposure gain currentYGain sqrtSpeed).1.currentExposure
      = s.currentExposure := by
  have heq : computeExposure s exposure gain currentYGain sqrtSpeed =
      ({ s with prevExposureValue := (exposure : ℚ) * s.lineDuration * gain },
        exposure, gain) := by
    simp only [computeExposure]
    rw [if_pos h]
  refine ⟨heq, ?_, ?_, ?_, ?_⟩ <;> rw [heq]

/-- Witness for `computeExposure_wellExposed`: `iqMean = 128` makes the
histogram EV gain exactly 1. -/
theorem computeExposure_wellExposed_witness :
    |evGainValue (128 : ℚ) 1 - 1| < 1 / 100 ∧
    (computeExposure
        ⟨0, 128, 1, 1 / 10000, 3 / 50, 1, 8, 0, 0, 0, 1, ⟨1, 1⟩⟩
        5 2 1 0).2.1 = 5 := by
  have h : |evGainValue (128 : ℚ) 1 - 1| < 1 / 100 := by
    norm_num [evGainValue, kEvGainTarget, knumHistogramBins]
  exact ⟨h,
    (computeExposure_wellExposed
      ⟨0, 128, 1, 1 / 10000, 3 / 50, 1, 8, 0, 0, 0, 1, ⟨1, 1⟩⟩
      5 2 1 0 h).2.1⟩

theorem stdClamp_bounds (v lo hi : ℚ) (h : lo ≤ hi) :
    lo ≤ stdClamp v lo hi ∧ stdClamp v lo hi ≤ hi := by
  unfold stdClamp
  split_ifs with h1 h2
  · exact ⟨le_refl _, h⟩
  · exact ⟨h, le_refl _⟩
  · exact ⟨le_of_not_lt h1, le_of_not_lt h2⟩

/-- The configuration fields of the AGC state survive
`computeExposure`. -/
theorem computeExposure_config (s : AgcState) (exposure : ℕ)
    (gain currentYGain sqrtSpeed : ℚ) :
    (computeExposure s exposure gain currentYGain sqrtSpeed).1.lineDuration
        = s.lineDuration ∧
    (computeExposure s exposure gain currentYGain sqrtSpeed).1.minShutterSpeed
        = s.minShutterSpeed ∧
    (computeExposure s exposure gain currentYGain sqrtSpeed).1.maxShutterSpeed
        = s.maxShutterSpeed ∧
    (computeExposure s exposure gain currentYGain sqrtSpeed).1.minAnalogueGain
        = s.minAnalogueGain ∧
    (computeExposure s exposure gain currentYGain sqrtSpeed).1.maxAnalogueGain
        = s.maxAnalogueGain := by
  simp only [computeExposure]
  split <;> exact ⟨rfl, rfl, rfl, rfl, rfl⟩

/-- The exposure and gain produced by `computeExposure` stay inside the
configured ranges recorded in the state, for every possible measured
brightness, refinement gain and filter value. -/
theorem computeExposure_bounds (s : AgcState) (exposure : ℕ)
    (gain currentYGain sqrtSpeed : ℚ)
    (hld : 0 < s.lineDuration)
    (hss : s.minShutterSpeed ≤ s.maxShutterSpeed)
    (hgg : s.minAnalogueGain ≤ s.maxAnalogueGain)
    (he1 : (⌊s.minShutterSpeed / s.lineDuration⌋).toNat ≤ exposure)
    (he2 : exposure ≤ (⌊s.maxShutterSpeed / s.lineDuration⌋).toNat)
    (hg1 : s.minAnalogueGain ≤ gain) (hg2 : gain ≤ s.maxAnalogueGain) :
    (⌊s.minShutterSpeed / s.lineDuration⌋).toNat ≤
        (computeExposure s exposure gain currentYGain sqrtSpeed).2.1 ∧
    (computeExposure s exposure gain currentYGain sqrtSpeed).2.1 ≤
        (⌊s.maxShutterSpeed / s.lineDuration⌋).toNat ∧
    s.minAnalogueGain ≤
        (computeExposure s exposure gain currentYGain sqrtSpeed).2.2 ∧
    (computeExposure s exposure gain currentYGain sqrtSpeed).2.2 ≤
        s.maxAnalogueGain := by
  simp only [computeExposure]
  split
  · exact ⟨he1, he2, hg1, hg2⟩
  · obtain ⟨hs1, hs2⟩ := stdClamp_bounds
      (filterExposure _ sqrtSpeed / s.minAnalogueGain)
      s.minShutterSpeed s.maxShutterSpeed hss
    obtain ⟨hg1', hg2'⟩ := stdClamp_bounds
      (filterExposure _ sqrtSpeed /
        stdClamp (filterExposure _ sqrtSpeed / s.minAnalogueGain)
          s.minShutterSpeed s.maxShutterSpeed)
      s.minAnalogueGain s.maxAnalogueGain hgg
    refine ⟨?_, ?_, hg1', hg2'⟩
    · exact Int.toNat_le_toNat (Int.floor_le_floor
        ((div_le_div_iff_of_pos_right hld).mpr hs1))
    · exact Int.toNat_le_toNat (Int.floor_le_floor
        ((div_le_div_iff_of_pos_right hld).mpr hs2))

/-- The inductive invariant of the per-frame AGC loop: the state still
carries the ranges derived at `configure` time and the frame context's
exposure and gain lie inside them. -/
def InRanges (cfg : AgcConfigInfo) (p : AgcState × AgcFrameContext) : Prop :=
  p.1.lineDuration = lineDurationOf cfg ∧
  p.1.minShutterSpeed = cfg.minShutterSpeed ∧
  p.1.maxShutterSpeed = maxShutterOf cfg ∧
  p.1.minAnalogueGain = minGainOf cfg ∧
  p.1.maxAnalogueGain = maxGainOf cfg ∧
  minExposureLines cfg ≤ p.2.exposure ∧
  p.2.exposure ≤ maxExposureLines cfg ∧
  minGainOf cfg ≤ p.2.gain ∧
  p.2.gain ≤ maxGainOf cfg

theorem processFrame_preserves (cfg : AgcConfigInfo)
    (hld : 0 < lineDurationOf cfg)
    (hss : cfg.minShutterSpeed ≤ maxShutterOf cfg)
    (hgg : minGainOf cfg ≤ maxGainOf cfg)
    (p : AgcState × AgcFrameContext) (inp : FrameInput)
    (hp : InRanges cfg p) : InRanges cfg (processFrame p inp) := by
  obtain ⟨s, f⟩ := p
  obtain ⟨h1, h2, h3, h4, h5, h6, h7, h8, h9⟩ := hp
  have m1 : (measureBrightness s inp.stats).lineDuration = lineDurationOf cfg :=
    h1
  have m2 : (measureBrightness s inp.stats).minShutterSpeed =
      cfg.minShutterSpeed := h2
  have m3 : (measureBrightness s inp.stats).maxShutterSpeed =
      maxShutterOf cfg := h3
  have m4 : (measureBrightness s inp.stats).minAnalogueGain =
      minGainOf cfg := h4
  have m5 : (measureBrightness s inp.stats).maxAnalogueGain =
      maxGainOf cfg := h5
  have hld' : 0 < (measureBrightness s inp.stats).lineDuration := by
    rw [m1]; exact hld
  have hss' : (measureBrightness s inp.stats).minShutterSpeed ≤
      (measureBrightness s inp.stats).maxShutterSpeed := by
    rw [m2, m3]; exact hss
  have hgg' : (measureBrightness s inp.stats).minAnalogueGain ≤
      (measureBrightness s inp.stats).maxAnalogueGain := by
    rw [m4, m5]; exact hgg
  have he1 : (⌊(measureBrightness s inp.stats).minShutterSpeed /
      (measureBrightness s inp.stats).lineDuration⌋).toNat ≤ f.exposure := by
    rw [m2, m1]; exact h6
  have he2 : f.exposure ≤ (⌊(measureBrightness s inp.stats).maxShutterSpeed /
      (measureBrightness s inp.stats).lineDuration⌋).toNat := by
    rw [m3, m1]; exact h7
  have hg1 : (measureBrightness s inp.stats).minAnalogueGain ≤ f.gain := by
    rw [m4]; exact h8
  have hg2 : f.gain ≤ (measureBrightness s inp.stats).maxAnalogueGain := by
    rw [m5]; exact h9
  obtain ⟨B1, B2, B3, B4⟩ := computeExposure_bounds
    (measureBrightness s inp.stats) f.exposure f.gain
    (processYGain s.stride s.grid inp.stats inp.awb) inp.sqrtSpeed
    hld' hss' hgg' he1 he2 hg1 hg2
  obtain ⟨C1, C2, C3, C4, C5⟩ := computeExposure_config
    (measureBrightness s inp.stats) f.exposure f.gain
    (processYGain s.stride s.grid inp.stats inp.awb) inp.sqrtSpeed
  rw [m2, m1] at B1
  rw [m3, m1] at B2
  rw [m4] at B3
  rw [m5] at B4
  exact ⟨C1.trans m1, C2.trans m2, C3.trans m3, C4.trans m4, C5.trans m5,
    B1, B2, B3, B4⟩

/-- C4. For every sequence of processed frames, after `Agc::process`
returns, the frame context's exposure in sensor lines lies between the
configured minimum and maximum (`minShutterSpeed/lineDuration` and
`maxShutterSpeed/lineDuration`, as stored at `configure` time) and the
analogue gain lies between the configured minimum and maximum gains, on
every control path — including the well-exposed early return (which
leaves the previous in-range values untouched) and the first frames
after `configure` (which seeds the minimum exposure and gain). -/
theorem agc_exposure_gain_bounds (cfg : AgcConfigInfo)
    (inputs : List FrameInput)
    (hld : 0 < lineDurationOf cfg)
    (hss : cfg.minShutterSpeed ≤ maxShutterOf cfg)
    (hgg : minGainOf cfg ≤ maxGainOf cfg) :
    minExposureLines cfg ≤ (runFrames cfg inputs).2.exposure ∧
    (runFrames cfg inputs).2.exposure ≤ maxExposureLines cfg ∧
    minGainOf cfg ≤ (runFrames cfg inputs).2.gain ∧
    (runFrames cfg inputs).2.gain ≤ maxGainOf cfg := by
  have base : InRanges cfg (configure cfg) := by
    refine ⟨rfl, rfl, rfl, rfl, rfl, le_refl _, ?_, le_refl _, hgg⟩
    exact Int.toNat_le_toNat (Int.floor_le_floor
      ((div_le_div_iff_of_pos_right hld).mpr hss))
  have main : ∀ (l : List FrameInput) (p : AgcState × AgcFrameContext),
      InRanges cfg p → InRanges cfg (l.foldl processFrame p) := by
    intro l
    induction l with
    | nil => intro p hp; exact hp
    | cons inp rest ih =>
      intro p hp
      exact ih _ (processFrame_preserves cfg hld hss hgg p inp hp)
  obtain ⟨-, -, -, -, -, b1, b2, b3, b4⟩ := main inputs (configure cfg) base
  exact ⟨b1, b2, b3, b4⟩

/-- Witness for `agc_exposure_gain_bounds`: a 16.8µs line duration,
shutter range [100µs, 60ms], gain range [1, 8], and one processed
frame. -/
theorem agc_exposure_gain_bounds_witness :
    0 < lineDurationOf ⟨168, 10000000, 1, ⟨1, 1⟩, 1 / 10000, 1, 1, 8⟩ ∧
    minGainOf ⟨168, 10000000, 1, ⟨1, 1⟩, 1 / 10000, 1, 1, 8⟩ ≤
      (runFrames ⟨168, 10000000, 1, ⟨1, 1⟩, 1 / 10000, 1, 1, 8⟩
        [⟨fun _ => ⟨100, 100, 100, 100, 0⟩, ⟨1, 1, 1⟩, 447 / 1000⟩]).2.gain := by
  have hld : 0 < lineDurationOf ⟨168, 10000000, 1, ⟨1, 1⟩, 1 / 10000, 1, 1, 8⟩ := by
    norm_num [lineDurationOf]
  have hss : (⟨168, 10000000, 1, ⟨1, 1⟩, 1 / 10000, 1, 1, 8⟩ :
      AgcConfigInfo).minShutterSpeed ≤
      maxShutterOf ⟨168, 10000000, 1, ⟨1, 1⟩, 1 / 10000, 1, 1, 8⟩ := by
    norm_num [maxShutterOf, kMaxShutterSpeed]
  have hgg : minGainOf ⟨168, 10000000, 1, ⟨1, 1⟩, 1 / 10000, 1, 1, 8⟩ ≤
      maxGainOf ⟨168, 10000000, 1, ⟨1, 1⟩, 1 / 10000, 1, 1, 8⟩ := by
    norm_num [minGainOf, maxGainOf, kMinAnalogueGain, kMaxAnalogueGain]
  exact ⟨hld,
    (agc_exposure_gain_bounds ⟨168, 10000000, 1, ⟨1, 1⟩, 1 / 10000, 1, 1, 8⟩
      [⟨fun _ => ⟨100, 100, 100, 100, 0⟩, ⟨1, 1, 1⟩, 447 / 1000⟩]
      hld hss hgg).2.2.1⟩

end Ipu3Agc

namespace RkAwb

/-!
### The RkISP1 AWB (`ipa::rkisp1::RkISP1Awb`)

`double` values are modelled as `ℚ`. The statistics extraction
(`generateAwbStats`) fills exactly the first of the
`kAwbStatsSizeX × kAwbStatsSizeY` regions from the single
`awb_mean[0]` measurement of the RkISP1 statistics buffer.
-/

/-- `IPU3Awb::RGB` / libipa `RGB`: per-zone channel averages. -/
structure RGB where
  R : ℚ
  G : ℚ
  B : ℚ
  deriving DecidableEq, Repr

/-- `AwbStatus`: the AWB result kept across frames. -/
structure AwbStatus where
  temperatureK : ℚ
  redGain : ℚ
  greenGain : ℚ
  blueGain : ℚ
  deriving DecidableEq, Repr

/-- `IspStatsRegion`: accumulated sums for one statistics region. -/
structure IspStatsRegion where
  counted : ℕ
  uncounted : ℕ
  rSum : ℚ
  gSum : ℚ
  bSum : ℚ
  deriving DecidableEq, Repr

/-- The fields of `rkisp1_cif_isp_stat.awb.awb_mean[0]` read by
`generateAwbStats`. -/
structure AwbMeanStats where
  cnt : ℕ
  meanYOrG : ℕ
  meanCbOrB : ℕ
  meanCrOrR : ℕ
  deriving DecidableEq, Repr

def kAwbStatsSizeX : ℕ := 16

def kAwbStatsSizeY : ℕ := 12

def kMinZonesCounted : ℕ := 16

def kMinGreenLevelInZone : ℕ := 16

/-- The constructor seeds `asyncResults_` with unit gains and 4500 K. -/
def initialStatus : AwbStatus := ⟨4500, 1, 1, 1⟩

/-- `clearAwbStats` zeroes every region. -/
def clearedRegion : IspStatsRegion := ⟨0, 0, 0, 0, 0⟩

/-- `generateAwbStats`: after `clearAwbStats`, only region 0 is filled,
from the single `awb_mean[0]` measurement (the sums are the means scaled
by 4 and by the count). -/
def generateAwbStats (stats : AwbMeanStats) : ℕ → IspStatsRegion :=
  fun i =>
    if i = 0 then
      { counted := stats.cnt
        uncounted := 0
        rSum := 4 * (stats.meanCrOrR : ℚ) * (stats.cnt : ℚ)
        gSum := 4 * (stats.meanYOrG : ℚ) * (stats.cnt : ℚ)
        bSum := 4 * (stats.meanCbOrB : ℚ) * (stats.cnt : ℚ) }
    else clearedRegion

/-- The body of the `generateZones` loop for one region: a region yields
a valid zone iff `counted ≥ kMinZonesCounted` and its green average is at
least `kMinGreenLevelInZone`. -/
def zoneOfRegion (reg : IspStatsRegion) : Option RGB :=
  if (kMinZonesCounted : ℚ) ≤ (reg.counted : ℚ) then
    let g := reg.gSum / (reg.counted : ℚ)
    if (kMinGreenLevelInZone : ℚ) ≤ g then
      some ⟨reg.rSum / (reg.counted : ℚ), g, reg.bSum / (reg.counted : ℚ)⟩
    else none
  else none

/-- `generateZones`: scan all `16 × 12` regions in order. -/
def generateZones (regions : ℕ → IspStatsRegion) : List RGB :=
  (List.range (kAwbStatsSizeX * kAwbStatsSizeY)).filterMap fun i =>
    zoneOfRegion (regions i)

/-- The zones `calculateWBGains` derives from a statistics buffer. -/
def zonesOf (stats : AwbMeanStats) : List RGB :=
  generateZones (generateAwbStats stats)

/-- Insertion step of the sorting used to order zones by gain
derivative. -/
def insertZone (le : RGB → RGB → Bool) (x : RGB) : List RGB → List RGB
  | [] => [x]
  | y :: ys => if le x y then x :: y :: ys else y :: insertZone le x ys

def sortZones (le : RGB → RGB → Bool) (l : List RGB) : List RGB :=
  l.foldr (insertZone le) []

/-- Sort key `G/R` ascending. -/
def leGR (a b : RGB) : Bool := decide (a.G / a.R ≤ b.G / b.R)

/-- Sort key `G/B` ascending. -/
def leGB (a b : RGB) : Bool := decide (a.G / a.B ≤ b.G / b.B)

/-- Discard the bottom and top quartiles (`length / 4` each side). -/
def trimQuartiles (l : List RGB) : List RGB :=
  (l.drop (l.length / 4)).take (l.length - 2 * (l.length / 4))

def sumR (l : List RGB) : ℚ := (l.map RGB.R).sum

def sumG (l : List RGB) : ℚ := (l.map RGB.G).sum

def sumB (l : List RGB) : ℚ := (l.map RGB.B).sum

/-- Modelled from the spec: `estimateCCT` (libipa's `awb.cpp` is not
part of the sources). §4.C step 5: map the mean RGB through the fixed
matrix to CIE XYZ, take the chromaticity `(x, y)` and McCamy's cubic. -/
def estimateCCT (red green blue : ℚ) : ℚ :=
  let X := (-14282 / 100000) * red + (154924 / 100000) * green +
    (-95641 / 100000) * blue
  let Y := (-32466 / 100000) * red + (157837 / 100000) * green +
    (-73191 / 100000) * blue
  let Z := (-68202 / 100000) * red + (77073 / 100000) * green +
    (56332 / 100000) * blue
  let x := X / (X + Y + Z)
  let y := Y / (X + Y + Z)
  let n := (x - 3320 / 10000) / (1858 / 10000 - y)
  449 * n ^ 3 + 3525 * n ^ 2 + (68233 / 10) * n + 552033 / 100

/-- Modelled from the spec: libipa's `awbGreyWorld` (its body is not
part of the sources, only its declaration in `libipa/awb.h`). §4.C
steps 1–5: sort two copies of the zone list by the `G/R` and `G/B`
derivatives, discard the bottom and top quartiles, compute
`R_gain = ΣG/ΣR` and `B_gain = ΣG/ΣB` over the retained middle, keep
the green gain at 1, and estimate the CCT from the retained averages
(gains fall back to 8.0 when a channel sum is zero). -/
def awbGreyWorld (zones : List RGB) : AwbStatus :=
  let redDerivative := trimQuartiles (sortZones leGR zones)
  let blueDerivative := trimQuartiles (sortZones leGB zones)
  let redGain := if sumR redDerivative = 0 then 8
    else sumG redDerivative / sumR redDerivative
  let blueGain := if sumB blueDerivative = 0 then 8
    else sumG blueDerivative / sumB blueDerivative
  let len : ℚ := (redDerivative.length : ℚ)
  { temperatureK := estimateCCT (sumR redDerivative / len)
      (sumG redDerivative / len) (sumB redDerivative / len)
    redGain := redGain
    greenGain := 1
    blueGain := blueGain }

/-- `RkISP1Awb::calculateWBGains`: clear and regenerate the statistics
and zones, then run the grey-world estimation — but only when the zone
list is non-empty (`if (zones_.size() != 0)`); otherwise
`asyncResults_` keeps its previous value. -/
def calculateWBGains (prev : AwbStatus) (stats : AwbMeanStats) : AwbStatus :=
  let zones := zonesOf stats
  if zones.length ≠ 0 then awbGreyWorld zones else prev

/-- The region scan only ever sees one populated region. -/
theorem zonesOf_eq_toList (stats : AwbMeanStats) :
    zonesOf stats = (zoneOfRegion (generateAwbStats stats 0)).toList := by
  have hrange : List.range (kAwbStatsSizeX * kAwbStatsSizeY) =
      0 :: List.range' 1 191 := by
    rw [List.range_eq_range']
    rfl
  have hnone : ∀ i ∈ List.range' 1 191,
      zoneOfRegion (generateAwbStats stats i) = none := by
    intro i hi
    have h1 : 1 ≤ i := (List.mem_range'_1.mp hi).1
    have h0 : ¬(i = 0) := by omega
    simp only [generateAwbStats, if_neg h0, zoneOfRegion, clearedRegion]
    norm_num [kMinZonesCounted]
  rw [zonesOf, generateZones, hrange, List.filterMap_cons]
  have hrest : (List.range' 1 191).filterMap
      (fun i => zoneOfRegion (generateAwbStats stats i)) = [] :=
    List.filterMap_eq_nil_iff.mpr hnone
  cases hz : zoneOfRegion (generateAwbStats stats 0) with
  | none => simp [hz, hrest]
  | some z => simp [hz, hrest]

/-- The RkISP1 statistics can never produce more than one valid zone. -/
theorem zonesOf_length_le_one (stats : AwbMeanStats) :
    (zonesOf stats).length ≤ 1 := by
  rw [zonesOf_eq_toList]
  cases zoneOfRegion (generateAwbStats stats 0) <;> simp

/-- C5 counterexample: a buffer with `cnt = 16` and means
`(G, B, R) = (25, 25, 50)` yields exactly one valid zone — fewer than
10 — yet `calculateWBGains` does not keep the previous result: the red
gain changes from its previous value 1 to `ΣG/ΣR = 100/200 = 1/2`,
because the code's guard is `zones_.size() != 0`, not `< 10`. -/
theorem calculateWBGains_one_zone_counterexample :
    (zonesOf ⟨16, 25, 25, 50⟩).length = 1 ∧
    (zonesOf ⟨16, 25, 25, 50⟩).length < 10 ∧
    initialStatus.redGain = 1 ∧
    (calculateWBGains initialStatus ⟨16, 25, 25, 50⟩).redGain = 1 / 2 ∧
    (calculateWBGains initialStatus ⟨16, 25, 25, 50⟩).redGain ≠
      initialStatus.redGain := by
  have hz : zoneOfRegion (generateAwbStats ⟨16, 25, 25, 50⟩ 0) =
      some ⟨200, 100, 100⟩ := by
    simp only [generateAwbStats, if_pos rfl, zoneOfRegion]
    norm_num [kMinZonesCounted, kMinGreenLevelInZone]
  have hzs : zonesOf ⟨16, 25, 25, 50⟩ = [⟨200, 100, 100⟩] := by
    rw [zonesOf_eq_toList, hz]
    rfl
  have hgw : awbGreyWorld [⟨200, 100, 100⟩] =
      ⟨estimateCCT 200 100 100, 1 / 2, 1, 1⟩ := by
    simp only [awbGreyWorld, sortZones, insertZone, List.foldr,
      trimQuartiles, sumR, sumG, sumB]
    norm_num
  have hcalc : calculateWBGains initialStatus ⟨16, 25, 25, 50⟩ =
      ⟨estimateCCT 200 100 100, 1 / 2, 1, 1⟩ := by
    rw [calculateWBGains, hzs, if_pos (by simp), hgw]
  refine ⟨by rw [hzs]; rfl, by rw [hzs]; norm_num, rfl, ?_, ?_⟩
  · rw [hcalc]
  · rw [hcalc]
    norm_num [initialStatus]

/-- C5 (amended). `RkISP1Awb::calculateWBGains` keeps the previous
`AwbResult` — gains and colour temperature unchanged — exactly when it
finds NO valid zone (its guard is `zones_.size() != 0`); since the
RkISP1 statistics fill a single region, at most one zone can ever be
valid, so the zone count is always below 10 and a 10-zone threshold
would never run the grey-world estimation at all. -/
theorem calculateWBGains_no_zone_keeps_previous (prev : AwbStatus)
    (stats : AwbMeanStats) (h : zonesOf stats = []) :
    calculateWBGains prev stats = prev ∧
    (zonesOf stats).length ≤ 1 := by
  refine ⟨?_, zonesOf_length_le_one stats⟩
  rw [calculateWBGains, h]
  simp

/-- Witness for `calculateWBGains_no_zone_keeps_previous`: an empty
measurement (`cnt = 0`) produces no valid zone. -/
theorem calculateWBGains_no_zone_witness :
    zonesOf ⟨0, 0, 0, 0⟩ = [] ∧
    calculateWBGains initialStatus ⟨0, 0, 0, 0⟩ = initialStatus := by
  have h : zonesOf ⟨0, 0, 0, 0⟩ = [] := by
    rw [zonesOf_eq_toList]
    have : zoneOfRegion (generateAwbStats ⟨0, 0, 0, 0⟩ 0) = none := by
      simp only [generateAwbStats, if_pos rfl, zoneOfRegion]
      norm_num [kMinZonesCounted]
    rw [this]
    rfl
  exact ⟨h,
    (calculateWBGains_no_zone_keeps_previous initialStatus ⟨0, 0, 0, 0⟩ h).1⟩

/-!
#### Writing the gains to the parameter buffer (`updateWbParameters`)
-/

/-- The `rkisp1_cif_isp_awb_gain_config` payload: 10-bit fixed-point
gain codes with 8 fractional bits (`0x100 = 1.0`). -/
structure AwbGainConfig where
  gainGreenB : ℤ
  gainBlue : ℤ
  gainRed : ℤ
  gainGreenR : ℤ
  deriving DecidableEq, Repr

/-- Module bits of the external kernel ABI header
`linux/rkisp1-config.h` (the header is outside the sources; the verified
properties do not depend on the exact bit positions, only on the fields
written). -/
def kModuleAwb : ℕ := 2 ^ 12

def kModuleAwbGain : ℕ := 2 ^ 5

def kAwbModeRgb : ℕ := 2

/-- The slice of `rkisp1_params_cfg` touched by `updateWbParameters`. -/
structure RkParams where
  moduleEnUpdate : ℕ
  moduleEns : ℕ
  moduleCfgUpdate : ℕ
  awbMode : ℕ
  awbGain : AwbGainConfig
  deriving DecidableEq, Repr

/-- The gain quantisation: `std::clamp(256 * gain, 128.0, 512.0)`,
truncated by the assignment to the integral hardware field. -/
def quantGain (g : ℚ) : ℤ := ⌊Ipu3Agc.stdClamp (256 * g) 128 512⌋

/-- `RkISP1Awb::updateWbParameters`: flag the AWB and AWB-gain modules
for update, select RGB mode, and write the quantised gains — both green
codes are the constant 256 (gain 1.0). -/
def updateWbParameters (results : AwbStatus) (p : RkParams) : RkParams :=
  { p with
    moduleEnUpdate := p.moduleEnUpdate ||| (kModuleAwb ||| kModuleAwbGain)
    moduleEns := p.moduleEns ||| (kModuleAwb ||| kModuleAwbGain)
    awbMode := kAwbModeRgb
    moduleCfgUpdate := p.moduleCfgUpdate ||| (kModuleAwbGain ||| kModuleAwb)
    awbGain :=
      { gainGreenB := 256
        gainBlue := quantGain results.blueGain
        gainRed := quantGain results.redGain
        gainGreenR := 256 } }

theorem quantGain_bounds (g : ℚ) :
    128 ≤ quantGain g ∧ quantGain g ≤ 512 := by
  unfold quantGain Ipu3Agc.stdClamp
  split_ifs with h1 h2
  · constructor <;> norm_num
  · constructor <;> norm_num
  · constructor
    · rw [Int.le_floor]
      push_cast
      exact le_of_not_lt h1
    · calc ⌊256 * g⌋ ≤ ⌊(512 : ℚ)⌋ := Int.floor_le_floor (le_of_not_lt h2)
        _ = 512 := by norm_num

/-- C6. When the parameter assembler writes the AWB gains into the
hardware parameter buffer, each red and blue gain is quantised as
`clamp(256·gain, 128, 512)` (truncated to the integral field) — the
resulting code always lies in `[128, 512]`, inside the 10-bit field's
range, so out-of-range gains are clamped and never wrapped, and an
in-range gain with an integral code is written verbatim — while both
green gain codes are written as exactly 256 (gain 1.0). -/
theorem updateWbParameters_gain_codes (results : AwbStatus) (p : RkParams)
    (g : ℚ) (hlo : (128 : ℚ) ≤ 256 * g) (hhi : 256 * g ≤ 512) :
    (updateWbParameters results p).awbGain.gainGreenB = 256 ∧
    (updateWbParameters results p).awbGain.gainGreenR = 256 ∧
    (updateWbParameters results p).awbGain.gainRed =
      ⌊Ipu3Agc.stdClamp (256 * results.redGain) 128 512⌋ ∧
    (updateWbParameters results p).awbGain.gainBlue =
      ⌊Ipu3Agc.stdClamp (256 * results.blueGain) 128 512⌋ ∧
    128 ≤ (updateWbParameters results p).awbGain.gainRed ∧
    (updateWbParameters results p).awbGain.gainRed ≤ 512 ∧
    128 ≤ (updateWbParameters results p).awbGain.gainBlue ∧
    (updateWbParameters results p).awbGain.gainBlue ≤ 512 ∧
    quantGain g = ⌊256 * g⌋ := by
  obtain ⟨r1, r2⟩ := quantGain_bounds results.redGain
  obtain ⟨b1, b2⟩ := quantGain_bounds results.blueGain
  refine ⟨rfl, rfl, rfl, rfl, r1, r2, b1, b2, ?_⟩
  unfold quantGain Ipu3Agc.stdClamp
  rw [if_neg (not_lt.mpr hlo), if_neg (not_lt.mpr hhi)]

/-- Witness for `updateWbParameters_gain_codes` at gain 1 (code 256). -/
theorem updateWbParameters_gain_codes_witness :
    (128 : ℚ) ≤ 256 * 1 ∧ 256 * (1 : ℚ) ≤ 512 ∧
    (updateWbParameters ⟨4500, 1, 1, 1⟩ ⟨0, 0, 0, 0, ⟨0, 0, 0, 0⟩⟩).awbGain.gainGreenB
      = 256 := by
  have hlo : (128 : ℚ) ≤ 256 * 1 := by norm_num
  have hhi : 256 * (1 : ℚ) ≤ 512 := by norm_num
  exact ⟨hlo, hhi,
    (updateWbParameters_gain_codes ⟨4500, 1, 1, 1⟩ ⟨0, 0, 0, 0, ⟨0, 0, 0, 0⟩⟩
      1 hlo hhi).1⟩

end RkAwb

namespace IobAf

/-!
### The IoB contrast-detection AF (`RPiController::Af`, af.cpp)

Contrast values (`double`) are modelled as `ℚ`; the VCM focus steps are
`uint32_t`, modelled as `ℕ`.
-/

def kMaxFocusSteps : ℕ := 1023

def kCoarseSearchStep : ℕ := 30

def kFineSearchStep : ℕ := 1

def kMaxChange : ℚ := 1 / 2

def kFineRange : ℚ := 5 / 100

/-- The member state of the `Af` object together with the published
`status_` fields (`lensPosition`, `state`). -/
structure AfState where
  focus : ℕ
  bestFocus : ℕ
  currentContrast : ℚ
  previousContrast : ℚ
  maxContrast : ℚ
  maxStep : ℕ
  coarseCompleted : Bool
  fineCompleted : Bool
  mode : ℕ
  lowStep : ℕ
  highStep : ℕ
  lensPosition : ℚ
  state : ℕ
  deriving DecidableEq, Repr

/-- `Af::afScan`: one scan step at granularity `minSteps`. Returns the
new state and whether the scan at this granularity finished. -/
def afScan (s : AfState) (minSteps : ℕ) : AfState × Bool :=
  if s.maxStep < s.focus + minSteps then
    ({ s with lensPosition := (s.bestFocus : ℚ) }, true)
  else if -(s.maxContrast * (1 / 10)) ≤ s.currentContrast - s.maxContrast then
    ({ s with
        bestFocus := s.focus
        focus := s.focus + minSteps
        maxContrast := s.currentContrast
        lensPosition := ((s.focus + minSteps : ℕ) : ℚ)
        previousContrast := s.currentContrast }, false)
  else
    ({ s with lensPosition := (s.bestFocus : ℚ) }, true)

/-- `Af::afCoarseScan`: run a coarse scan step; when it finishes, centre
the fine scan ±5% around the found position (with the `uint32_t`
truncations of the C++ assignments). -/
def afCoarseScan (s : AfState) : AfState :=
  if s.coarseCompleted then s
  else
    let r := afScan s kCoarseSearchStep
    if r.2 then
      let focus' := (⌊r.1.lensPosition - r.1.lensPosition * kFineRange⌋).toNat
      { r.1 with
        coarseCompleted := true
        maxContrast := 0
        focus := focus'
        lensPosition := (focus' : ℚ)
        previousContrast := 0
        maxStep := min (focus' + (⌊(focus' : ℚ) * kFineRange⌋).toNat)
          s.highStep }
    else r.1

/-- `Af::afFineScan`: once the coarse scan completed, run fine steps and
lock (`status_.state = 2`) when the fine scan finishes. -/
def afFineScan (s : AfState) : AfState :=
  if ¬s.coarseCompleted then s
  else
    let r := afScan s kFineSearchStep
    if r.2 then { r.1 with state := 2, fineCompleted := true }
    else r.1

/-- `Af::afIsOutOfFocus`: the contrast drifted by more than
`kMaxChange` relative to the maximum (the absolute difference is
truncated by the `uint32_t` assignment). -/
def afIsOutOfFocus (s : AfState) : Bool :=
  let diffVar : ℕ := (⌊|s.currentContrast - s.maxContrast|⌋).toNat
  decide (kMaxChange < (diffVar : ℚ) / s.maxContrast)

/-- `Af::afReset`: return the lens to the low end of the scan range and
restart the scan phase. It resets `focus`, `lensPosition`, `maxStep`,
`state`, `previousContrast`, the completion flags and `maxContrast` —
and leaves `bestFocus_` untouched. -/
def afReset (s : AfState) : AfState :=
  { s with
    lensPosition := (s.lowStep : ℚ)
    focus := s.lowStep
    maxStep := s.highStep
    state := 0
    previousContrast := 0
    coarseCompleted := false
    fineCompleted := false
    maxContrast := 0 }

/-- C7 counterexample: `afReset` does NOT set `best_focus` to 0 — from a
state with `best_focus = 7` it keeps 7, while it does set
`focus = low_step` and `max_contrast = 0`. -/
theorem afReset_counterexample :
    (afReset ⟨37, 7, 5, 3, 9, 100, true, true, 0, 2, 100, 37, 1⟩).bestFocus
      = 7 ∧
    (afReset ⟨37, 7, 5, 3, 9, 100, true, true, 0, 2, 100, 37, 1⟩).bestFocus
      ≠ 0 ∧
    (afReset ⟨37, 7, 5, 3, 9, 100, true, true, 0, 2, 100, 37, 1⟩).focus = 2 ∧
    (afReset ⟨37, 7, 5, 3, 9, 100, true, true, 0, 2, 100, 37, 1⟩).maxContrast
      = 0 := by
  refine ⟨rfl, ?_, rfl, rfl⟩
  decide

/-- C7 (amended). The AF Reset operation restores the scan state: it
sets `focus` to `low_step`, `max_contrast` to 0, the published lens
position to `low_step`, the state machine phase to the initial scanning
phase (`state = 0`, both scan-completion flags cleared,
`max_step = high_step`, previous contrast 0) — but it leaves
`best_focus` unchanged rather than zeroing it. -/
theorem afReset_spec (s : AfState) :
    (afReset s).focus = s.lowStep ∧
    (afReset s).maxContrast = 0 ∧
    (afReset s).bestFocus = s.bestFocus ∧
    (afReset s).lensPosition = (s.lowStep : ℚ) ∧
    (afReset s).state = 0 ∧
    (afReset s).previousContrast = 0 ∧
    (afReset s).coarseCompleted = false ∧
    (afReset s).fineCompleted = false ∧
    (afReset s).maxStep = s.highStep ∧
    (afReset s).currentContrast = s.currentContrast ∧
    (afReset s).mode = s.mode ∧
    (afReset s).lowStep = s.lowStep ∧
    (afReset s).highStep = s.highStep :=
  ⟨rfl, rfl, rfl, rfl, rfl, rfl, rfl, rfl, rfl, rfl, rfl, rfl, rfl⟩

end IobAf

namespace Ipu3Contrast

/-!
### The IPU3 Contrast/Gamma component (`ipu3/algorithms/contrast.cpp`)

`Contrast::initialise` sets `gamma_ = 1.1` and fills the 256-entry
`gc_lut` with `pow(i / 255.0, 1.0 / gamma_) * 8191`, assigned to an
integral hardware field — a truncation, not a rounding. The `double`
power is idealised as the real power function, so the entries are
modelled with `Real.rpow` and `Int.floor`.
-/

/-- The gamma set by `initialise` ("Limit the gamma effect for now"). -/
def gammaDefault : ℚ := 11 / 10

/-- The value computed for LUT entry `i` before the integral
assignment: `pow(i / 255.0, 1.0 / gamma) * 8191`. -/
noncomputable def gammaCurve (γ : ℚ) (i : ℕ) : ℝ :=
  ((i : ℝ) / 255) ^ ((1 : ℝ) / (γ : ℝ)) * 8191

/-- LUT entry `i` as stored: the curve value truncated by the assignment
to the hardware field (the value is non-negative, so truncation is the
floor). -/
noncomputable def lutEntry (i : ℕ) : ℤ := ⌊gammaCurve gammaDefault i⌋

/-- The full 256-entry table written by the `for (i = 0; i < 256; i++)`
loop. -/
noncomputable def gcLut : List ℤ := (List.range 256).map lutEntry

theorem gammaCurve_two :
    gammaCurve gammaDefault 2 = ((2 : ℝ) / 255) ^ ((10 : ℝ) / 11) * 8191 := by
  unfold gammaCurve gammaDefault
  norm_num

theorem pow_eleven_eq :
    (((2 : ℝ) / 255) ^ ((10 : ℝ) / 11)) ^ (11 : ℕ) =
      ((2 : ℝ) / 255) ^ (10 : ℕ) := by
  rw [← Real.rpow_natCast (((2 : ℝ) / 255) ^ ((10 : ℝ) / 11)) 11,
    ← Real.rpow_mul (by norm_num : (0 : ℝ) ≤ 2 / 255)]
  norm_num

theorem curve_two_lb : (199 / 16382 : ℝ) < ((2 : ℝ) / 255) ^ ((10 : ℝ) / 11) := by
  have hy : (0 : ℝ) ≤ ((2 : ℝ) / 255) ^ ((10 : ℝ) / 11) :=
    Real.rpow_nonneg (by norm_num) _
  have h : (199 / 16382 : ℝ) ^ (11 : ℕ) <
      (((2 : ℝ) / 255) ^ ((10 : ℝ) / 11)) ^ (11 : ℕ) := by
    rw [pow_eleven_eq]
    norm_num
  exact lt_of_pow_lt_pow_left₀ 11 hy h

theorem curve_two_ub : ((2 : ℝ) / 255) ^ ((10 : ℝ) / 11) < 100 / 8191 := by
  have h : (((2 : ℝ) / 255) ^ ((10 : ℝ) / 11)) ^ (11 : ℕ) <
      (100 / 8191 : ℝ) ^ (11 : ℕ) := by
    rw [pow_eleven_eq]
    norm_num
  exact lt_of_pow_lt_pow_left₀ 11 (by norm_num) h

/-- C8 counterexample: entry 2 of the gamma LUT is 99, the truncation of
`(2/255)^(1/1.1) · 8191 ≈ 99.82`, while rounding that value — as the
claim states — would give 100. -/
theorem lutEntry_round_counterexample :
    lutEntry 2 = 99 ∧
    round (gammaCurve gammaDefault 2) = 100 ∧
    lutEntry 2 ≠ round (gammaCurve gammaDefault 2) := by
  have h1 := curve_two_lb
  have h2 := curve_two_ub
  have hfloor : lutEntry 2 = 99 := by
    rw [lutEntry, gammaCurve_two, Int.floor_eq_iff]
    constructor
    · push_cast
      nlinarith
    · push_cast
      nlinarith
  have hround : round (gammaCurve gammaDefault 2) = 100 := by
    rw [gammaCurve_two, round_eq, Int.floor_eq_iff]
    constructor
    · push_cast
      nlinarith
    · push_cast
      nlinarith
  refine ⟨hfloor, hround, ?_⟩
  rw [hfloor, hround]
  norm_num

/-- C8 (amended). `initialise` writes a 256-entry lookup table with the
default gamma 1.1 in which entry `i`, for every `i ∈ [0, 255]`, equals
`⌊(i/255)^(1/1.1) · 8191⌋` — the truncation of the curve value, not its
rounding; the entries stay within `[0, 8191]` with `lut[0] = 0` and
`lut[255] = 8191`. -/
theorem lutEntry_spec (i : ℕ) (h : i ≤ 255) :
    gammaDefault = 11 / 10 ∧
    lutEntry i = ⌊((i : ℝ) / 255) ^ ((10 : ℝ) / 11) * 8191⌋ ∧
    0 ≤ lutEntry i ∧ lutEntry i ≤ 8191 ∧
    lutEntry 0 = 0 ∧ lutEntry 255 = 8191 ∧ gcLut.length = 256 := by
  have hexp : (1 : ℝ) / ((gammaDefault : ℚ) : ℝ) = 10 / 11 := by
    norm_num [gammaDefault]
  have hform : ∀ j : ℕ, lutEntry j = ⌊((j : ℝ) / 255) ^ ((10 : ℝ) / 11) * 8191⌋ := by
    intro j
    rw [lutEntry, gammaCurve, hexp]
  have hnn : ∀ j : ℕ, 0 ≤ lutEntry j := by
    intro j
    rw [lutEntry]
    exact Int.floor_nonneg.mpr (mul_nonneg
      (Real.rpow_nonneg (by positivity) _) (by norm_num))
  have hzero : lutEntry 0 = 0 := by
    rw [hform]
    norm_num [Real.zero_rpow]
  have hlast : lutEntry 255 = 8191 := by
    rw [hform]
    norm_num [Real.one_rpow]
  refine ⟨rfl, hform i, hnn i, ?_, hzero, hlast, by simp [gcLut]⟩
  rw [hform]
  have hx1 : ((i : ℝ) / 255) ≤ 1 := by
    rw [div_le_one (by norm_num : (0:ℝ) < 255)]
    exact_mod_cast le_trans h (by norm_num)
  have hr1 : ((i : ℝ) / 255) ^ ((10 : ℝ) / 11) ≤ 1 :=
    Real.rpow_le_one (by positivity) hx1 (by norm_num)
  calc ⌊((i : ℝ) / 255) ^ ((10 : ℝ) / 11) * 8191⌋ ≤ ⌊(8191 : ℝ)⌋ :=
        Int.floor_le_floor (by nlinarith)
    _ = 8191 := by norm_num

/-- Witness for `lutEntry_spec` at entry 2. -/
theorem lutEntry_spec_witness :
    2 ≤ 255 ∧ gammaDefault = 11 / 10 :=
  ⟨by norm_num, (lutEntry_spec 2 (by norm_num)).1⟩

end Ipu3Contrast
